import Mathlib

/-!
# Verification of the CosyVoice batch voice-cloning driver (`voice_clone.py`)

This file gives a shallow embedding of the batch-orchestration subsystem of
`voice_clone.py`: the SRT subtitle parser (`parse_srt`), the reference-audio
resolver (`find_reference_audio`), and the batch orchestrator
(`process_batch_mode`), together with proofs of the specified properties.

Conventions of the embedding:
* Python strings are modelled as `String` / `List Char`; Python `str.strip()`
  is `pyStrip` (ASCII whitespace, which is what the inputs at hand contain).
* The filesystem is an explicit record `FS` (existing files, existing
  directories, and the text contents of files); `os.path.exists` is
  `FS.pathExists`, `os.path.isdir` is `FS.isDir`.
* The external synthesis engine (`synthesize_with_cosyvoice`, which loads the
  reference clip, seeds the RNG, runs inference, and saves the result) is an
  oracle `SynthRequest → Except String Unit`: `.ok` means the utterance was
  synthesized and the output file written, `.error msg` means some exception
  was raised (unreadable reference, engine failure, write failure) and no
  output file was produced.
* Printing is not modelled except where a claim is about it: the parser's
  per-block diagnostic is reflected in `BlockResult.skippedDiag`, and the
  final summary block is the `Summary` structure.
-/

/-! ## Python string primitives -/

/-- The ASCII whitespace characters recognised by Python's `str.strip()` and
by the regex class `\s` (space, tab, newline, carriage return, vertical tab,
form feed). -/
def isPyWs (c : Char) : Bool :=
  c = ' ' || c = '\t' || c = '\n' || c = '\r' || c = '\x0b' || c = '\x0c'

/-- Python `str.strip()` on a character list: drop whitespace from both ends. -/
def pyStripL (l : List Char) : List Char :=
  ((l.dropWhile isPyWs).reverse.dropWhile isPyWs).reverse

/-- Python `str.strip()`. -/
def pyStrip (s : String) : String :=
  String.mk (pyStripL s.toList)

/-- Python `str.split('\n')` on a character list: split at every newline,
never collapsing; the empty input yields one empty field. -/
def splitLines : List Char → List (List Char)
  | [] => [[]]
  | c :: rest =>
    if c = '\n' then [] :: splitLines rest
    else
      match splitLines rest with
      | [] => [[c]]
      | l :: ls => (c :: l) :: ls

/-- Python `' '.join` on character-list lines. -/
def joinSp : List (List Char) → List Char
  | [] => []
  | [l] => l
  | l :: ls => l ++ ' ' :: joinSp ls

/-- Digit run of a Python integer literal after the first digit: decimal
digits with single underscores allowed between digits (Python 3.6+ grammar).
`acc` is the value of the digits read so far. -/
def pyDigits (acc : Nat) : List Char → Option Nat
  | [] => some acc
  | '_' :: c :: rest =>
    if c.isDigit then pyDigits (acc * 10 + (c.toNat - 48)) rest else none
  | c :: rest =>
    if c.isDigit then pyDigits (acc * 10 + (c.toNat - 48)) rest else none

/-- The digit part of a Python integer literal: at least one digit, then
`pyDigits`. -/
def pyDigitsStart : List Char → Option Nat
  | [] => none
  | c :: rest => if c.isDigit then pyDigits (c.toNat - 48) rest else none

/-- Python `int(s)`: strip whitespace, optional sign, decimal digits (with
single interior underscores).  Returns `none` where `int` raises
`ValueError`.  (Non-ASCII decimal digits, which `int` also accepts, are not
modelled; the inputs at hand are ASCII.) -/
def pyInt? (l : List Char) : Option Int :=
  match pyStripL l with
  | '+' :: rest => (pyDigitsStart rest).map Int.ofNat
  | '-' :: rest => (pyDigitsStart rest).map (fun n => -(n : Int))
  | rest => (pyDigitsStart rest).map Int.ofNat

/-! ## `re.split(r'\n\s*\n', ...)`

`splitBlocksF` is a fuel-indexed scanner equivalent to splitting at every
(leftmost, greedy) match of the regex `\n\s*\n`: at a newline, the greedy
`\s*` consumes the maximal whitespace run and backtracks to the last newline
inside it, so a match exists exactly when that run contains a newline and the
separator extends through the last newline of the run.  Fuel is the length of
the input, which the scanner never exceeds. -/

/-- One fuel unit is spent per character consumed; with `fuel ≥ l.length` the
fuel never runs out (the fuel-exhausted clause coincides with the base case
on the empty input). -/
def splitBlocksF : Nat → List Char → List Char → List (List Char)
  | 0, acc, l => [acc.reverse ++ l]
  | _ + 1, acc, [] => [acc.reverse]
  | fuel + 1, acc, c :: rest =>
    if c = '\n' then
      let run := rest.takeWhile isPyWs
      let sep := (run.reverse.dropWhile (fun x => x ≠ '\n')).reverse
      if sep.isEmpty then splitBlocksF fuel (c :: acc) rest
      else acc.reverse :: splitBlocksF fuel [] (rest.drop sep.length)
    else splitBlocksF fuel (c :: acc) rest

/-- `re.split(r'\n\s*\n', content.strip())` from `parse_srt`. -/
def splitBlocks (content : String) : List (List Char) :=
  let l := pyStripL content.toList
  splitBlocksF l.length [] l

/-! ## The subtitle parser (`parse_srt`) -/

/-- One parsed subtitle entry: the dict
`{'id': ..., 'timestamp': ..., 'text': ...}` built by `parse_srt`. -/
structure SubtitleEntry where
  id : Int
  timestamp : String
  text : String
deriving DecidableEq, Repr

/-- What `parse_srt` does with a single block: either it appends a parsed
entry, or it skips the block.  A block with fewer than 3 lines fails the
`len(lines) >= 3` guard and is skipped with no output; a block with at least
3 lines whose first line is not an integer raises `ValueError` inside the
`try` and is skipped with a printed warning (the diagnostic). -/
inductive BlockResult where
  | parsed (e : SubtitleEntry)
  | skippedSilent
  | skippedDiag
deriving DecidableEq, Repr

/-- The body of the `for block in blocks` loop of `parse_srt`. -/
def parseBlock (block : List Char) : BlockResult :=
  let lines := splitLines (pyStripL block)
  match lines with
  | l0 :: l1 :: l2 :: rest =>
    match pyInt? (pyStripL l0) with
    | some n =>
      .parsed ⟨n, String.mk (pyStripL l1), String.mk (pyStripL (joinSp (l2 :: rest)))⟩
    | none => .skippedDiag
  | _ => .skippedSilent

/-- `parse_srt`, kept at per-block granularity (one `BlockResult` per block
of the document). -/
def parse_srt_blocks (content : String) : List BlockResult :=
  (splitBlocks content).map parseBlock

/-- `parse_srt`: the list of successfully parsed entries, in document
order. -/
def parse_srt (content : String) : List SubtitleEntry :=
  (parse_srt_blocks content).filterMap fun r =>
    match r with
    | .parsed e => some e
    | _ => none

/-- Number of per-block diagnostics printed by `parse_srt` for a document. -/
def parse_srt_diagCount (content : String) : Nat :=
  ((parse_srt_blocks content).filter (fun r => r = BlockResult.skippedDiag)).length

/-! ## Filesystem model -/

/-- The filesystem state visible to the script: the set of existing regular
files, the set of existing directories, and the text contents of files
(consulted only to read the SRT document).  Writing an output audio file adds
its path to `files`. -/
structure FS where
  files : List String
  dirs : List String
  content : String → String

/-- `os.path.exists`. -/
def FS.pathExists (fs : FS) (p : String) : Bool :=
  fs.files.contains p || fs.dirs.contains p

/-- `os.path.isdir`. -/
def FS.isDir (fs : FS) (p : String) : Bool :=
  fs.dirs.contains p

/-- Whether a path ends with the separator `/` (the check `os.path.join`
makes before inserting one). -/
def endsWithSep (d : String) : Bool :=
  match d.toList.getLast? with
  | some c => c = '/'
  | none => false

/-- `os.path.join dir name` for the relative names occurring here (the
candidate filenames of `find_reference_audio` and the generated output
filenames; the special-casing of absolute second components never fires on
those). -/
def pathJoin (d p : String) : String :=
  if d = "" then p
  else if endsWithSep d then d ++ p
  else d ++ "/" ++ p

/-! ## The reference resolver (`find_reference_audio`) -/

/-- Python `f"{n:03d}"`: decimal digits zero-padded to overall width 3, the
sign counting toward the width. -/
def format03 (n : Int) : String :=
  let digits := toString n.natAbs
  let pad := fun (w : Nat) (s : String) =>
    if w ≤ s.length then s else String.mk (List.replicate (w - s.length) '0') ++ s
  if n < 0 then "-" ++ pad 2 digits else pad 3 digits

/-- The fixed pattern list of `find_reference_audio`, in source order
(`audioPref` is the `audio_prefix` argument). -/
def refPatterns (audioPref : String) (subtitle_id : Int) : List String :=
  [ audioPref ++ "_" ++ format03 subtitle_id ++ ".wav"
  , audioPref ++ "_" ++ format03 subtitle_id ++ ".mp3"
  , audioPref ++ "_" ++ toString subtitle_id ++ ".wav"
  , audioPref ++ "_" ++ toString subtitle_id ++ ".mp3"
  , audioPref ++ format03 subtitle_id ++ ".wav"
  , audioPref ++ format03 subtitle_id ++ ".mp3"
  , audioPref ++ toString subtitle_id ++ ".wav"
  , audioPref ++ toString subtitle_id ++ ".mp3"
  , audioPref ++ "_" ++ format03 subtitle_id ++ ".mp4"
  , audioPref ++ "_" ++ format03 subtitle_id ++ ".m4a" ]

/-- The candidate paths tried by `find_reference_audio`, in order. -/
def candidatePaths (reference_dir : String) (subtitle_id : Int) (audioPref : String) :
    List String :=
  (refPatterns audioPref subtitle_id).map (pathJoin reference_dir)

/-- `find_reference_audio`: return the first candidate path that exists,
`None` if none exists. -/
def find_reference_audio (fs : FS) (reference_dir : String) (subtitle_id : Int)
    (audioPref : String) : Option String :=
  (candidatePaths reference_dir subtitle_id audioPref).find? fs.pathExists

/-! ## The batch orchestrator (`process_batch_mode`) -/

/-- The command-line arguments consumed by batch mode.  `audioPref` and
`outputPref` are the source's `audio_prefix` and `output_prefix`;
`reference_dir` and `audio_path` are `None` when the corresponding flag was
not given (the CLI's mutually exclusive group supplies at most one). -/
structure BatchArgs where
  srt : String
  reference_dir : Option String
  audio_path : Option String
  audioPref : String := "segment"
  outputPref : String := "clone"
  output : String := "outputs_cosyvoice"
  prompt_text : String := ""
  instruct : String := ""
  skip_existing : Bool := false
  seed : Int := 42
deriving DecidableEq, Repr

/-- The seed computed for one entry: `args.seed + subtitle_id`. -/
def entrySeed (base : Int) (subtitle_id : Int) : Int :=
  base + subtitle_id

/-- The argument tuple handed to `synthesize_with_cosyvoice`, i.e. the
request crossing the synthesis boundary. -/
structure SynthRequest where
  text : String
  prompt_text : String
  prompt_audio_path : String
  output_path : String
  instruct_text : String
  seed : Int
deriving DecidableEq, Repr

/-- Per-entry outcome, as counted by the three counters of
`process_batch_mode` (`success_count`, `skip_count`, `error_count`). -/
inductive Outcome where
  | Success
  | Skipped
  | Error
deriving DecidableEq, Repr

/-- What one iteration of the batch loop did for one subtitle entry: the
entry's id, the counted outcome, the request given to the synthesis boundary
(if synthesis was reached), and the output path written (if any). -/
structure EntryResult where
  id : Int
  outcome : Outcome
  request : Option SynthRequest
  wrote : Option String
deriving DecidableEq, Repr

/-- Python truthiness of an optional string (`if not ref_audio`,
`if args.reference_dir and ...`): false for `None` and for the empty
string. -/
def truthyS : Option String → Bool
  | none => false
  | some s => s ≠ ""

/-- The output path generated for an entry:
`os.path.join(args.output, f"{args.output_prefix}_{subtitle_id:03d}.wav")`. -/
def outputPath (args : BatchArgs) (subtitle_id : Int) : String :=
  pathJoin args.output (args.outputPref ++ "_" ++ format03 subtitle_id ++ ".wav")

/-- The reference-audio lookup of one loop iteration: the shared
`args.audio_path` when one was given (`use_single_audio`), otherwise a
`find_reference_audio` call against the reference directory. -/
def refLookup (args : BatchArgs) (fs : FS) (subtitle_id : Int) : Option String :=
  if args.audio_path.isSome then args.audio_path
  else find_reference_audio fs (args.reference_dir.getD "") subtitle_id args.audioPref

/-- The batch loop crashes (uncaught `TypeError` from
`os.path.join(None, ...)`, raised outside the per-entry `try`) exactly when
neither `--audio-path` nor `--reference-dir` was given; this combination is
outside the spec's `BatchJob` model and reachable only by pairing `--srt`
with the single-mode flag `--reference`. -/
def entryCrashes (args : BatchArgs) : Bool :=
  args.audio_path.isNone && args.reference_dir.isNone

/-- The body of the `for idx, subtitle in enumerate(subtitles, 1)` loop of
`process_batch_mode`, for one entry: resolve the reference (error and
continue when falsy), apply the skip-existing policy, otherwise call the
synthesis boundary with seed `args.seed + subtitle_id`, converting an
exception into an error outcome.  A successful synthesis writes the output
file. -/
def processEntryCore (args : BatchArgs) (synth : SynthRequest → Except String Unit)
    (fs : FS) (s : SubtitleEntry) : EntryResult × FS :=
  let ref_audio := refLookup args fs s.id
  if !(truthyS ref_audio) then
    (⟨s.id, .Error, none, none⟩, fs)
  else
    let output_path := outputPath args s.id
    if args.skip_existing && fs.pathExists output_path then
      (⟨s.id, .Skipped, none, none⟩, fs)
    else
      let q : SynthRequest :=
        ⟨s.text, args.prompt_text, ref_audio.getD "", output_path, args.instruct,
          entrySeed args.seed s.id⟩
      match synth q with
      | .ok _ => (⟨s.id, .Success, some q, some output_path⟩,
                  { fs with files := output_path :: fs.files })
      | .error _ => (⟨s.id, .Error, some q, none⟩, fs)

/-- One loop iteration, including the crash case (`none` = uncaught
exception, which aborts the whole run). -/
def processEntry (args : BatchArgs) (synth : SynthRequest → Except String Unit)
    (fs : FS) (s : SubtitleEntry) : Option (EntryResult × FS) :=
  if entryCrashes args then none else some (processEntryCore args synth fs s)

/-- The batch loop over all parsed subtitle entries.  Returns the per-entry
results in order, the filesystem after the loop, and whether the loop was
aborted by an uncaught exception (in which case the results of the entries
already handled are dropped along with the rest of the function). -/
def runLoop (args : BatchArgs) (synth : SynthRequest → Except String Unit) :
    List SubtitleEntry → FS → List EntryResult × FS × Bool
  | [], fs => ([], fs, false)
  | s :: rest, fs =>
    match processEntry args synth fs s with
    | none => ([], fs, true)
    | some (r, fs1) =>
      let (rs, fs2, c) := runLoop args synth rest fs1
      (r :: rs, fs2, c)

/-- The three fatal pre-flight conditions of `process_batch_mode`, in check
order. -/
inductive PreflightError where
  | srtMissing
  | refMissing
  | noSubtitles
deriving DecidableEq, Repr

/-- The printed summary block: `total = len(subtitles)`, the three counters,
and the success rate `success_count / total * 100`, printed only under
`if total > 0` (`none` = not printed). -/
structure Summary where
  total : Nat
  success_count : Nat
  skip_count : Nat
  error_count : Nat
  success_rate : Option ℚ
deriving DecidableEq, Repr

/-- The summary computed and printed at the end of the loop. -/
def summarize (rs : List EntryResult) (total : Nat) : Summary :=
  let success := (rs.filter (fun r => r.outcome = Outcome.Success)).length
  let skip := (rs.filter (fun r => r.outcome = Outcome.Skipped)).length
  let err := (rs.filter (fun r => r.outcome = Outcome.Error)).length
  { total := total
    success_count := success
    skip_count := skip
    error_count := err
    success_rate := if 0 < total then some ((success : ℚ) / (total : ℚ) * 100) else none }

/-- The observable effect of one `process_batch_mode` call. -/
structure BatchRun where
  preflight : Option PreflightError
  results : List EntryResult
  crashed : Bool
  fsAfter : FS
  summary : Option Summary

/-- The validation of the reference source, nested in the source as
`if args.reference_dir and not os.path.isdir(args.reference_dir):` followed
by `if not (args.audio_path and os.path.exists(args.audio_path)):`; both
`return` paths are taken exactly when this conjunction holds.  Note the
whole check is skipped when no reference directory was given: a nonexistent
shared audio path is NOT caught here. -/
def refCond (args : BatchArgs) (fs : FS) : Bool :=
  truthyS args.reference_dir && !(fs.isDir (args.reference_dir.getD ""))
    && !(truthyS args.audio_path && fs.pathExists (args.audio_path.getD ""))

/-- `process_batch_mode`: pre-flight validation (SRT file exists; if a
reference directory was given but is not a directory, an existing shared
audio path must have been given; parsing must yield at least one entry),
then the per-entry loop, then the summary.  A crashed loop propagates its
exception past the summary block, so no summary is produced. -/
def process_batch_mode (args : BatchArgs) (synth : SynthRequest → Except String Unit)
    (fs : FS) : BatchRun :=
  if !(fs.pathExists args.srt) then
    ⟨some .srtMissing, [], false, fs, none⟩
  else if refCond args fs then
    ⟨some .refMissing, [], false, fs, none⟩
  else
    let subtitles := parse_srt (fs.content args.srt)
    if subtitles.isEmpty then
      ⟨some .noSubtitles, [], false, fs, none⟩
    else
      let (rs, fs2, crashed) := runLoop args synth subtitles fs
      ⟨none, rs, crashed, fs2,
        if crashed then none else some (summarize rs subtitles.length)⟩

/-- The output paths written during a run, in write order. -/
def writesOf (rs : List EntryResult) : List String :=
  rs.filterMap EntryResult.wrote
/-! ## Concrete fixtures

Small closed instances used by the witness and counterexample theorems
below: a synthesis oracle that always succeeds, one that always raises, and
a few filesystems with an SRT document and reference clips. -/

/-- An engine that synthesizes every request successfully. -/
def synthOk : SynthRequest → Except String Unit := fun _ => Except.ok ()

/-- An engine whose every invocation raises (e.g. the reference clip cannot
be decoded). -/
def synthFail : SynthRequest → Except String Unit := fun _ => Except.error "engine failure"

/-- A five-entry subtitle document. -/
def srtDoc5 : String :=
  "1\n00:00:01,000 --> 00:00:02,000\nAlpha\n\n2\nt2\nBravo\n\n3\nt3\nCharlie\n\n4\nt4\nDelta\n\n5\nt5\nEcho"

/-- Filesystem for the five-entry batch: reference clips for ids 1, 2, 4, 5
are present, the clip for id 3 is deliberately absent. -/
def fsBatch5 : FS :=
  ⟨["subs.srt", "refs/segment_001.wav", "refs/segment_002.wav",
    "refs/segment_004.wav", "refs/segment_005.wav"], ["refs"],
   fun p => if p = "subs.srt" then srtDoc5 else ""⟩

/-- Batch arguments for the five-entry batch. -/
def argsBatch5 : BatchArgs :=
  { srt := "subs.srt", reference_dir := some "refs", audio_path := none, output := "out" }

/-- A two-entry document. -/
def srtDoc2 : String := "1\nt1\nHello\n\n2\nt2\nWorld"

/-- Filesystem for the two-entry batch with both reference clips present. -/
def fsPair : FS :=
  ⟨["subs.srt", "refs/segment_001.wav", "refs/segment_002.wav"], ["refs"],
   fun p => if p = "subs.srt" then srtDoc2 else ""⟩

/-- Batch arguments for the two-entry batch, with `--skip-existing`. -/
def argsPair : BatchArgs :=
  { srt := "subs.srt", reference_dir := some "refs", audio_path := none,
    output := "out", skip_existing := true }

/-- Filesystem with one subtitle entry whose reference clip is missing (the
reference directory exists but is empty). -/
def fsOneMissing : FS :=
  ⟨["subs.srt"], ["refs"], fun p => if p = "subs.srt" then "1\nt\nhello" else ""⟩

/-- Filesystem for the shared-audio-path run: the SRT file exists, but the
shared audio file `missing.wav` does not. -/
def fsNoAudio : FS :=
  ⟨["subs.srt"], [], fun p => if p = "subs.srt" then "1\nt\nhello" else ""⟩

/-- Batch arguments naming a nonexistent shared audio path (no reference
directory). -/
def argsNoAudio : BatchArgs :=
  { srt := "subs.srt", reference_dir := none, audio_path := some "missing.wav" }

/-- A document whose two blocks carry the same id 5. -/
def srtDocDup : String := "5\nt1\nfoo\n\n5\nt2\nbar"

/-- Filesystem for the duplicate-id batch. -/
def fsDup : FS :=
  ⟨["subs.srt", "refs/segment_005.wav"], ["refs"],
   fun p => if p = "subs.srt" then srtDocDup else ""⟩

/-- Batch arguments for the duplicate-id batch (no skip-existing). -/
def argsDup : BatchArgs :=
  { srt := "subs.srt", reference_dir := some "refs", audio_path := none, output := "out" }

/-- The duplicate-id batch with `--skip-existing`. -/
def argsDupSkip : BatchArgs :=
  { argsDup with skip_existing := true }

/-- Directory `d` holding both `segment_005.wav` and `segment5.mp3`. -/
def fsPriority : FS :=
  ⟨["d/segment_005.wav", "d/segment5.mp3"], [], fun _ => ""⟩

/-- One-entry batch over `fsOneMissing`, with `--skip-existing`. -/
def argsOneMissing : BatchArgs :=
  { srt := "subs.srt", reference_dir := some "refs", audio_path := none,
    output := "out", skip_existing := true }

/-- Batch arguments naming a reference directory that is not a directory. -/
def argsBadDir : BatchArgs :=
  { srt := "subs.srt", reference_dir := some "nope", audio_path := none }

/-- Filesystem whose SRT document contains no valid block. -/
def fsGarbage : FS :=
  ⟨["subs.srt"], ["refs"], fun _ => "no valid blocks here"⟩

/-- The request the two-entry batch issues for entry 1. -/
def reqHello : SynthRequest :=
  ⟨"Hello", "", "refs/segment_001.wav", "out/clone_001.wav", "", 43⟩

/-- The result the two-entry batch records for entry 1 on a fresh
filesystem. -/
def resHello : EntryResult :=
  ⟨1, Outcome.Success, some reqHello, some "out/clone_001.wav"⟩

/-! ## Round-trip harness for the parser

To state the parser's correctness on all valid documents, a document is
rendered from a list of blocks, each block a list of lines.  A line is
well formed when it is nonempty, contains no newline, and is unchanged by
`strip` (the document's framing makes any surrounding whitespace
unrecoverable by design, so validity is stated on stripped lines).  Note the
rendering functions and well-formedness predicates describe input documents;
they are not part of the program. -/

/-- Render a block from its lines (inverse of splitting on `'\n'`). -/
def joinNl : List (List Char) → List Char
  | [] => []
  | [l] => l
  | l :: ls => l ++ '\n' :: joinNl ls

/-- Render a document from its blocks, separated by blank lines. -/
def renderDoc : List (List (List Char)) → List Char
  | [] => []
  | [b] => joinNl b
  | b :: bs => joinNl b ++ '\n' :: '\n' :: renderDoc bs

/-- A well-formed input line: nonempty, no embedded newline, strip-fixed. -/
def WFLine (l : List Char) : Prop :=
  l ≠ [] ∧ '\n' ∉ l ∧ pyStripL l = l

instance (l : List Char) : Decidable (WFLine l) := by
  unfold WFLine
  infer_instance

/-- A well-formed input block: at least one well-formed line.  (Blocks with
fewer than three lines or a non-integer first line are still well formed as
input; the parser is expected to skip them.) -/
def WFBlock (b : List (List Char)) : Prop :=
  b ≠ [] ∧ ∀ l ∈ b, WFLine l

instance (b : List (List Char)) : Decidable (WFBlock b) := by
  unfold WFBlock
  infer_instance

/-- What the specification expects the parser to do with one well-formed
block: parse the first line as the id, keep the second line as the
timestamp, join the remaining lines with single spaces as the text; skip
blocks with fewer than three lines or a non-integer first line. -/
def expectedResult (b : List (List Char)) : BlockResult :=
  match b with
  | l0 :: l1 :: l2 :: rest =>
    match pyInt? l0 with
    | some n => .parsed ⟨n, String.mk l1, String.mk (joinSp (l2 :: rest))⟩
    | none => .skippedDiag
  | _ => .skippedSilent

/-- Extraction of the parsed entries from per-block results (the shape of
`parse_srt` relative to `parse_srt_blocks`). -/
def parsedOf (rs : List BlockResult) : List SubtitleEntry :=
  rs.filterMap fun r =>
    match r with
    | .parsed e => some e
    | _ => none


/-! ## General helper lemmas -/

/-- A successful `find?` splits its list at the first satisfying element. -/
theorem find?_eq_some_split {α : Type} (p : α → Bool) :
    ∀ (l : List α) (a : α), l.find? p = some a →
      p a = true ∧ ∃ l1 l2, l = l1 ++ a :: l2 ∧ ∀ x ∈ l1, p x = false := by
  intro l
  induction l with
  | nil => intro a h; simp [List.find?] at h
  | cons x xs ih =>
    intro a h
    rw [List.find?_cons] at h
    by_cases hx : p x
    · simp [hx] at h
      subst h
      exact ⟨hx, [], xs, rfl, by simp⟩
    · simp [hx] at h
      obtain ⟨hpa, l1, l2, heq, hall⟩ := ih a h
      refine ⟨hpa, x :: l1, l2, by simp [heq], ?_⟩
      intro y hy
      rcases List.mem_cons.mp hy with rfl | hy
      · simpa using hx
      · exact hall y hy

/-- The three counters of the summary partition the result list. -/
theorem outcome_counts_partition (rs : List EntryResult) :
    (rs.filter (fun r => r.outcome = Outcome.Success)).length
      + (rs.filter (fun r => r.outcome = Outcome.Skipped)).length
      + (rs.filter (fun r => r.outcome = Outcome.Error)).length = rs.length := by
  induction rs with
  | nil => simp
  | cons r rs ih =>
    cases h : r.outcome <;> simp [List.filter_cons, h] <;> omega

/-! ## Case analysis of one batch-loop iteration -/

/-- Everything one iteration of the batch loop can do, by the branch taken:
unresolved reference (error, untouched filesystem), skip-existing, a
successful synthesis (request issued with seed `args.seed + id`, output file
written), or a failed synthesis (request issued, nothing written). -/
theorem processEntryCore_cases (args : BatchArgs)
    (synth : SynthRequest → Except String Unit) (fs : FS) (s : SubtitleEntry) :
    processEntryCore args synth fs s = (⟨s.id, .Error, none, none⟩, fs)
    ∨ processEntryCore args synth fs s = (⟨s.id, .Skipped, none, none⟩, fs)
    ∨ (∃ q : SynthRequest, q.seed = entrySeed args.seed s.id
        ∧ q.output_path = outputPath args s.id ∧ q.text = s.text
        ∧ (processEntryCore args synth fs s =
              (⟨s.id, .Success, some q, some (outputPath args s.id)⟩,
               { fs with files := outputPath args s.id :: fs.files })
          ∨ processEntryCore args synth fs s = (⟨s.id, .Error, some q, none⟩, fs))) := by
  unfold processEntryCore
  by_cases h1 : truthyS (refLookup args fs s.id)
  · simp only [h1, Bool.not_true, Bool.false_eq_true, if_false]
    by_cases h2 : args.skip_existing && fs.pathExists (outputPath args s.id)
    · simp [h2]
    · simp only [h2, Bool.false_eq_true, if_false]
      cases hq : synth ⟨s.text, args.prompt_text, (refLookup args fs s.id).getD "",
          outputPath args s.id, args.instruct, entrySeed args.seed s.id⟩ with
      | ok u =>
        refine Or.inr (Or.inr ⟨⟨s.text, args.prompt_text, (refLookup args fs s.id).getD "",
          outputPath args s.id, args.instruct, entrySeed args.seed s.id⟩,
          rfl, rfl, rfl, Or.inl (by simp [hq])⟩)
      | error e =>
        refine Or.inr (Or.inr ⟨⟨s.text, args.prompt_text, (refLookup args fs s.id).getD "",
          outputPath args s.id, args.instruct, entrySeed args.seed s.id⟩,
          rfl, rfl, rfl, Or.inr (by simp [hq])⟩)
  · simp [h1]

/-- One iteration reports the id of the entry it handled. -/
theorem processEntryCore_id (args : BatchArgs)
    (synth : SynthRequest → Except String Unit) (fs : FS) (s : SubtitleEntry) :
    (processEntryCore args synth fs s).1.id = s.id := by
  rcases processEntryCore_cases args synth fs s with h | h | ⟨q, _, _, _, h | h⟩ <;>
    simp [h]

/-- One iteration can only add files; directories and file contents are
untouched. -/
theorem processEntryCore_fs (args : BatchArgs)
    (synth : SynthRequest → Except String Unit) (fs : FS) (s : SubtitleEntry) :
    (∃ w : List String, (processEntryCore args synth fs s).2.files = w ++ fs.files)
    ∧ (processEntryCore args synth fs s).2.dirs = fs.dirs
    ∧ (processEntryCore args synth fs s).2.content = fs.content := by
  rcases processEntryCore_cases args synth fs s with h | h | ⟨q, _, _, _, h | h⟩
  · exact ⟨⟨[], by simp [h]⟩, by simp [h], by simp [h]⟩
  · exact ⟨⟨[], by simp [h]⟩, by simp [h], by simp [h]⟩
  · exact ⟨⟨[outputPath args s.id], by simp [h]⟩, by simp [h], by simp [h]⟩
  · exact ⟨⟨[], by simp [h]⟩, by simp [h], by simp [h]⟩

/-! ## Batch-loop invariants -/

/-- When a reference source is configured, the loop never crashes and yields
exactly one result per entry, with matching ids, in order. -/
theorem runLoop_ids (args : BatchArgs) (synth : SynthRequest → Except String Unit)
    (h : entryCrashes args = false) :
    ∀ (subs : List SubtitleEntry) (fs : FS),
      (runLoop args synth subs fs).1.map EntryResult.id = subs.map SubtitleEntry.id
      ∧ (runLoop args synth subs fs).2.2 = false := by
  intro subs
  induction subs with
  | nil => intro fs; simp [runLoop]
  | cons s rest ih =>
    intro fs
    rcases hpe : processEntryCore args synth fs s with ⟨r, fs1⟩
    rcases hrl : runLoop args synth rest fs1 with ⟨rs, fs2, c⟩
    have hid : r.id = s.id := by
      have := processEntryCore_id args synth fs s
      rw [hpe] at this; exact this
    have hih := ih fs1
    rw [hrl] at hih
    simp only [runLoop, processEntry, h, Bool.false_eq_true, if_false, hpe, hrl]
    simp only [List.map_cons, hid]
    exact ⟨by rw [hih.1], hih.2⟩

/-- The loop only adds files to the filesystem; directories and text contents
are untouched. -/
theorem runLoop_fs (args : BatchArgs) (synth : SynthRequest → Except String Unit) :
    ∀ (subs : List SubtitleEntry) (fs : FS),
      (∃ w : List String, (runLoop args synth subs fs).2.1.files = w ++ fs.files)
      ∧ (runLoop args synth subs fs).2.1.dirs = fs.dirs
      ∧ (runLoop args synth subs fs).2.1.content = fs.content := by
  intro subs
  induction subs with
  | nil =>
    intro fs
    refine ⟨⟨[], ?_⟩, ?_, ?_⟩ <;> simp [runLoop]
  | cons s rest ih =>
    intro fs
    by_cases h : entryCrashes args
    · refine ⟨⟨[], ?_⟩, ?_, ?_⟩ <;> simp [runLoop, processEntry, h]
    · rcases hpe : processEntryCore args synth fs s with ⟨r, fs1⟩
      rcases hrl : runLoop args synth rest fs1 with ⟨rs, fs2, c⟩
      have hfs1 := processEntryCore_fs args synth fs s
      rw [hpe] at hfs1
      obtain ⟨⟨w1, hw1⟩, hd1, hc1⟩ := hfs1
      have hw1a : fs1.files = w1 ++ fs.files := hw1
      have hd1a : fs1.dirs = fs.dirs := hd1
      have hc1a : fs1.content = fs.content := hc1
      have hih := ih fs1
      rw [hrl] at hih
      obtain ⟨⟨w2, hw2⟩, hd2, hc2⟩ := hih
      have hw2a : fs2.files = w2 ++ fs1.files := hw2
      have hd2a : fs2.dirs = fs1.dirs := hd2
      have hc2a : fs2.content = fs1.content := hc2
      simp only [runLoop, processEntry, h, Bool.false_eq_true, if_false, hpe, hrl]
      refine ⟨⟨w2 ++ w1, ?_⟩, ?_, ?_⟩
      · show fs2.files = (w2 ++ w1) ++ fs.files
        rw [hw2a, hw1a, List.append_assoc]
      · show fs2.dirs = fs.dirs
        rw [hd2a, hd1a]
      · show fs2.content = fs.content
        rw [hc2a, hc1a]

/-- Every request issued during the loop carries the seed
`args.seed + id` of the entry it was issued for, and targets that entry's
output path. -/
theorem runLoop_request_seed (args : BatchArgs)
    (synth : SynthRequest → Except String Unit) :
    ∀ (subs : List SubtitleEntry) (fs : FS) (r : EntryResult) (q : SynthRequest),
      r ∈ (runLoop args synth subs fs).1 → r.request = some q →
      q.seed = entrySeed args.seed r.id ∧ q.output_path = outputPath args r.id := by
  intro subs
  induction subs with
  | nil => intro fs r q hr; simp [runLoop] at hr
  | cons s rest ih =>
    intro fs r q hr hq
    by_cases h : entryCrashes args
    · simp [runLoop, processEntry, h] at hr
    · rcases hpe : processEntryCore args synth fs s with ⟨r0, fs1⟩
      rcases hrl : runLoop args synth rest fs1 with ⟨rs, fs2, c⟩
      simp only [runLoop, processEntry, h, Bool.false_eq_true, if_false, hpe, hrl] at hr
      rcases List.mem_cons.mp hr with rfl | hmem
      · rcases processEntryCore_cases args synth fs s with hc | hc | ⟨q0, hs, hout, _, hc | hc⟩ <;>
          rw [hpe] at hc <;> rw [Prod.mk.injEq] at hc <;>
          have hr0 := hc.1.symm
      

        · rw [← hr0] at hq; simp at hq
        · rw [← hr0] at hq; simp at hq
        · rw [← hr0] at hq
          simp only [Option.some.injEq] at hq
          subst hq
          rw [← hr0]
          exact ⟨hs, hout⟩
        · rw [← hr0] at hq
          simp only [Option.some.injEq] at hq
          subst hq
          rw [← hr0]
          exact ⟨hs, hout⟩
      · exact ih fs1 r q (by rw [hrl]; exact hmem) hq

/-- A `Success` result wrote its entry's output file, and that file is
present in the filesystem the loop ends with. -/
theorem runLoop_success_written (args : BatchArgs)
    (synth : SynthRequest → Except String Unit) :
    ∀ (subs : List SubtitleEntry) (fs : FS) (r : EntryResult),
      r ∈ (runLoop args synth subs fs).1 → r.outcome = Outcome.Success →
      r.wrote = some (outputPath args r.id)
      ∧ outputPath args r.id ∈ (runLoop args synth subs fs).2.1.files := by
  intro subs
  induction subs with
  | nil => intro fs r hr; simp [runLoop] at hr
  | cons s rest ih =>
    intro fs r hr hsucc
    by_cases h : entryCrashes args
    · simp [runLoop, processEntry, h] at hr
    · rcases hpe : processEntryCore args synth fs s with ⟨r0, fs1⟩
      rcases hrl : runLoop args synth rest fs1 with ⟨rs, fs2, c⟩
      simp only [runLoop, processEntry, h, Bool.false_eq_true, if_false, hpe, hrl] at hr ⊢
      have hfs2 := runLoop_fs args synth rest fs1
      rw [hrl] at hfs2
      obtain ⟨⟨w2, hw2⟩, _, _⟩ := hfs2
      have hw2a : fs2.files = w2 ++ fs1.files := hw2
      rcases List.mem_cons.mp hr with rfl | hmem
      · rcases processEntryCore_cases args synth fs s with hc | hc | ⟨q0, _, _, _, hc | hc⟩ <;>
          rw [hpe] at hc <;> rw [Prod.mk.injEq] at hc <;>
          have hr0 := hc.1.symm
        · rw [← hr0] at hsucc; simp at hsucc
        · rw [← hr0] at hsucc; simp at hsucc
        · have hfs1 : fs1 = { fs with files := outputPath args s.id :: fs.files } := hc.2
          rw [← hr0]
          refine ⟨rfl, ?_⟩
          show outputPath args s.id ∈ fs2.files
          rw [hw2a, hfs1]
          simp
        · rw [← hr0] at hsucc; simp at hsucc
      · have := ih fs1 r (by rw [hrl]; exact hmem) hsucc
        rw [hrl] at this
        exact this

/-- A string with a nonempty suffix appended is nonempty. -/
theorem append_ne_empty_of_right (s t : String) (ht : 0 < t.length) : s ++ t ≠ "" := by
  intro h
  have hl := congrArg String.length h
  rw [String.length_append] at hl
  rw [show ("" : String).length = 0 from rfl] at hl
  omega

/-- Every candidate filename pattern is a nonempty string (each ends in a
4-character extension). -/
theorem refPatterns_ne_empty (audioPref : String) (sid : Int) :
    ∀ p ∈ refPatterns audioPref sid, p ≠ "" := by
  intro p hp
  simp only [refPatterns, List.mem_cons, List.not_mem_nil, or_false] at hp
  rcases hp with h | h | h | h | h | h | h | h | h | h <;> subst h <;>
    exact append_ne_empty_of_right _ _ (by decide)

/-- Joining a nonempty name onto a directory yields a nonempty path. -/
theorem pathJoin_ne_empty (d p : String) (hp : p ≠ "") : pathJoin d p ≠ "" := by
  have hplen : 0 < p.length := by
    rcases Nat.eq_zero_or_pos p.length with h0 | h
    · exfalso
      apply hp
      cases p with
      | mk data =>
        cases data with
        | nil => rfl
        | cons c cs => simp [String.length] at h0
    · exact h
  unfold pathJoin
  by_cases h1 : d = ""
  · simpa [h1] using hp
  · by_cases h2 : endsWithSep d
    · simp only [h1, h2, if_false, if_true]
      exact append_ne_empty_of_right d p hplen
    · simp only [h1, h2, if_false]
      exact append_ne_empty_of_right _ p hplen

/-- `os.path.exists` is monotone under adding files (directories fixed). -/
theorem pathExists_mono (fs fs' : FS) (hf : ∀ x ∈ fs.files, x ∈ fs'.files)
    (hd : fs'.dirs = fs.dirs) (p : String) (h : fs.pathExists p = true) :
    fs'.pathExists p = true := by
  unfold FS.pathExists at h ⊢
  rcases Bool.or_eq_true_iff.mp h with h1 | h1
  · have : p ∈ fs.files := by simpa using h1
    have : p ∈ fs'.files := hf p this
    exact Bool.or_eq_true_iff.mpr (Or.inl (by simpa using this))
  · rw [hd]
    exact Bool.or_eq_true_iff.mpr (Or.inr h1)

/-- A reference lookup that succeeded (produced a truthy path) still
succeeds after files have been added: the shared audio path is unchanged,
and in the directory case some candidate still exists, and any candidate
path is a nonempty string. -/
theorem refLookup_mono (args : BatchArgs) (fs fs' : FS)
    (hf : ∀ x ∈ fs.files, x ∈ fs'.files) (hd : fs'.dirs = fs.dirs) (sid : Int)
    (h : truthyS (refLookup args fs sid) = true) :
    truthyS (refLookup args fs' sid) = true := by
  unfold refLookup at h ⊢
  by_cases hap : args.audio_path.isSome
  · simpa [hap] using h
  · simp only [hap, if_false] at h ⊢
    unfold find_reference_audio at h ⊢
    cases hfind : (candidatePaths (args.reference_dir.getD "") sid args.audioPref).find?
        fs.pathExists with
    | none => rw [hfind] at h; simp [truthyS] at h
    | some c =>
      obtain ⟨hpc, l1, l2, hdec, _⟩ := find?_eq_some_split _ _ _ hfind
      have hc_mem : c ∈ candidatePaths (args.reference_dir.getD "") sid args.audioPref := by
        rw [hdec]; simp
      have hc' : fs'.pathExists c = true := pathExists_mono fs fs' hf hd c hpc
      have hsome : ((candidatePaths (args.reference_dir.getD "") sid
          args.audioPref).find? fs'.pathExists).isSome := by
        rw [List.find?_isSome]
        exact ⟨c, hc_mem, hc'⟩
      obtain ⟨c', hc'eq⟩ := Option.isSome_iff_exists.mp hsome
      rw [hc'eq]
      have hc'mem : c' ∈ candidatePaths (args.reference_dir.getD "") sid args.audioPref :=
        List.mem_of_find?_eq_some hc'eq
      have hc'ne : c' ≠ "" := by
        unfold candidatePaths at hc'mem
        obtain ⟨pat, hpat, rfl⟩ := List.mem_map.mp hc'mem
        exact pathJoin_ne_empty _ _ (refPatterns_ne_empty _ _ pat hpat)
      simpa [truthyS] using hc'ne

/-- Re-running the loop on the filesystem an all-`Success` first run left
behind, with `skip_existing` set, skips every entry and changes nothing. -/
theorem runLoop_rerun_skips (args : BatchArgs) (synth : SynthRequest → Except String Unit)
    (hskip : args.skip_existing = true) (hcr : entryCrashes args = false) :
    ∀ (subs : List SubtitleEntry) (fs : FS),
      (∀ r ∈ (runLoop args synth subs fs).1, r.outcome = Outcome.Success) →
      runLoop args synth subs (runLoop args synth subs fs).2.1 =
        (subs.map (fun s => ⟨s.id, Outcome.Skipped, none, none⟩),
         (runLoop args synth subs fs).2.1, false) := by
  intro subs
  induction subs with
  | nil => intro fs hall; simp [runLoop]
  | cons s rest ih =>
    intro fs hall
    rcases hpe : processEntryCore args synth fs s with ⟨r, fs1⟩
    rcases hrl : runLoop args synth rest fs1 with ⟨rs, fs2, c⟩
    have hrun1 : runLoop args synth (s :: rest) fs = (r :: rs, fs2, c) := by
      simp only [runLoop, processEntry, hcr, Bool.false_eq_true, if_false, hpe, hrl]
    rw [hrun1] at hall ⊢
    have hrsucc : r.outcome = Outcome.Success := hall r (by simp)
    have hallrest : ∀ r' ∈ rs, r'.outcome = Outcome.Success := by
      intro r' h'
      exact hall r' (by simp [h'])
    -- Branch analysis of the first run's step on `s`: only the
    -- successful-synthesis branch is compatible with `hrsucc`.
    unfold processEntryCore at hpe
    by_cases h1 : truthyS (refLookup args fs s.id)
    · by_cases h2 : args.skip_existing && fs.pathExists (outputPath args s.id)
      · simp only [h1, Bool.not_true, Bool.false_eq_true, if_false, h2, if_true] at hpe
        rw [Prod.mk.injEq] at hpe
        rw [← hpe.1] at hrsucc
        simp at hrsucc
      · simp only [h1, Bool.not_true, Bool.false_eq_true, if_false, h2] at hpe
        cases hq : synth ⟨s.text, args.prompt_text, (refLookup args fs s.id).getD "",
            outputPath args s.id, args.instruct, entrySeed args.seed s.id⟩ with
        | error e =>
          rw [hq] at hpe
          rw [Prod.mk.injEq] at hpe
          rw [← hpe.1] at hrsucc
          simp at hrsucc
        | ok u =>
          rw [hq] at hpe
          rw [Prod.mk.injEq] at hpe
          have hfs1 : fs1 = { fs with files := outputPath args s.id :: fs.files } :=
            hpe.2.symm
          -- Facts about the filesystem the first run ends with.
          have hfs2 := runLoop_fs args synth rest fs1
          rw [hrl] at hfs2
          obtain ⟨⟨w2, hw2⟩, hd2, hc2⟩ := hfs2
          have hw2a : fs2.files = w2 ++ fs1.files := hw2
          have hd2a : fs2.dirs = fs1.dirs := hd2
          have hsub : ∀ x ∈ fs.files, x ∈ fs2.files := by
            intro x hx
            rw [hw2a, hfs1]
            simp [hx]
          have hd20 : fs2.dirs = fs.dirs := by rw [hd2a, hfs1]
          have hpath2 : fs2.pathExists (outputPath args s.id) = true := by
            unfold FS.pathExists
            have : outputPath args s.id ∈ fs2.files := by
              rw [hw2a, hfs1]; simp
            exact Bool.or_eq_true_iff.mpr (Or.inl (by simpa using this))
          have h1' : truthyS (refLookup args fs2 s.id) = true :=
            refLookup_mono args fs fs2 hsub hd20 s.id h1
          have hstep2 : processEntryCore args synth fs2 s =
              (⟨s.id, Outcome.Skipped, none, none⟩, fs2) := by
            unfold processEntryCore
            simp only [h1', Bool.not_true, Bool.false_eq_true, if_false, hskip, hpath2,
              Bool.and_self, if_true]
          -- IH: the rerun over the tail, starting from `fs2`, skips all.
          have hih := ih fs1 (by rw [hrl]; exact hallrest)
          rw [hrl] at hih
          -- hih : runLoop args synth rest fs2 = (rest.map ..., fs2, false)
          simp only [runLoop, processEntry, hcr, Bool.false_eq_true, if_false, hstep2, hih,
            List.map_cons]
    · simp only [h1, Bool.not_true, Bool.not_false, if_true] at hpe
      rw [Prod.mk.injEq] at hpe
      rw [← hpe.1] at hrsucc
      simp at hrsucc

/-- A run that passed pre-flight is exactly the loop over the parsed
entries, followed by the summary (absent if the loop crashed). -/
theorem process_batch_mode_eq (args : BatchArgs) (synth : SynthRequest → Except String Unit)
    (fs : FS) (h : (process_batch_mode args synth fs).preflight = none) :
    parse_srt (fs.content args.srt) ≠ [] ∧
    process_batch_mode args synth fs =
      ⟨none,
       (runLoop args synth (parse_srt (fs.content args.srt)) fs).1,
       (runLoop args synth (parse_srt (fs.content args.srt)) fs).2.2,
       (runLoop args synth (parse_srt (fs.content args.srt)) fs).2.1,
       if (runLoop args synth (parse_srt (fs.content args.srt)) fs).2.2 then none
       else some (summarize (runLoop args synth (parse_srt (fs.content args.srt)) fs).1
         (parse_srt (fs.content args.srt)).length)⟩ := by
  unfold process_batch_mode at h ⊢
  by_cases h1 : fs.pathExists args.srt
  · simp only [h1, Bool.not_true, Bool.false_eq_true, if_false] at h ⊢
    by_cases h2 : refCond args fs
    · rw [if_pos h2] at h
      simp at h
    · rw [if_neg h2] at h ⊢
      by_cases h3 : (parse_srt (fs.content args.srt)).isEmpty
      · simp only [h3, if_true] at h
        simp at h
      · simp only [h3, Bool.false_eq_true, if_false] at h ⊢
        refine ⟨by simpa [List.isEmpty_iff] using h3, ?_⟩
        rcases hrl : runLoop args synth (parse_srt (fs.content args.srt)) fs with ⟨rs, fs2, c⟩
        simp [hrl]
  · simp only [h1, Bool.not_false, if_true] at h
    simp at h

/-- The four mutually exclusive shapes of a `process_batch_mode` call: one
of the three pre-flight rejections, or a run that reached the loop. -/
theorem process_batch_mode_cases (args : BatchArgs)
    (synth : SynthRequest → Except String Unit) (fs : FS) :
    (fs.pathExists args.srt = false
      ∧ process_batch_mode args synth fs = ⟨some .srtMissing, [], false, fs, none⟩)
    ∨ (fs.pathExists args.srt = true ∧ refCond args fs = true
      ∧ process_batch_mode args synth fs = ⟨some .refMissing, [], false, fs, none⟩)
    ∨ (fs.pathExists args.srt = true ∧ refCond args fs = false
      ∧ parse_srt (fs.content args.srt) = []
      ∧ process_batch_mode args synth fs = ⟨some .noSubtitles, [], false, fs, none⟩)
    ∨ (fs.pathExists args.srt = true ∧ refCond args fs = false
      ∧ parse_srt (fs.content args.srt) ≠ []
      ∧ (process_batch_mode args synth fs).preflight = none) := by
  cases h1 : fs.pathExists args.srt with
  | false =>
    left
    refine ⟨rfl, ?_⟩
    unfold process_batch_mode
    rw [h1]
    rfl
  | true =>
    cases h2 : refCond args fs with
    | true =>
      right; left
      refine ⟨rfl, rfl, ?_⟩
      unfold process_batch_mode
      rw [h1, h2]
      rfl
    | false =>
      cases h3 : (parse_srt (fs.content args.srt)).isEmpty with
      | true =>
        right; right; left
        refine ⟨rfl, rfl, List.isEmpty_iff.mp h3, ?_⟩
        unfold process_batch_mode
        rw [h1, h2]
        simp only [Bool.not_true, Bool.false_eq_true, if_false]
        simp [h3]
      | false =>
        right; right; right
        refine ⟨rfl, rfl, by simpa [List.isEmpty_iff] using h3, ?_⟩
        unfold process_batch_mode
        rw [h1, h2]
        simp only [Bool.not_true, Bool.false_eq_true, if_false]
        rcases hrl : runLoop args synth (parse_srt (fs.content args.srt)) fs with ⟨rs, fs2, c⟩
        simp [h3, hrl]

/-- A run either stopped pre-flight (no results) or its results are exactly
the loop's. -/
theorem process_batch_mode_results_cases (args : BatchArgs)
    (synth : SynthRequest → Except String Unit) (fs : FS) :
    (process_batch_mode args synth fs).results = []
    ∨ (process_batch_mode args synth fs).results =
        (runLoop args synth (parse_srt (fs.content args.srt)) fs).1 := by
  rcases process_batch_mode_cases args synth fs with ⟨_, h⟩ | ⟨_, _, h⟩ | ⟨_, _, _, h⟩ |
      ⟨_, _, _, h⟩
  · exact Or.inl (by rw [h])
  · exact Or.inl (by rw [h])
  · exact Or.inl (by rw [h])
  · exact Or.inr (by rw [(process_batch_mode_eq args synth fs h).2])

/-- Passing pre-flight is equivalent to the conjunction of the three checked
conditions. -/
theorem process_batch_mode_preflight_none_iff (args : BatchArgs)
    (synth : SynthRequest → Except String Unit) (fs : FS) :
    (process_batch_mode args synth fs).preflight = none ↔
      fs.pathExists args.srt = true ∧ refCond args fs = false
      ∧ parse_srt (fs.content args.srt) ≠ [] := by
  constructor
  · intro h
    rcases process_batch_mode_cases args synth fs with ⟨_, hc⟩ | ⟨_, _, hc⟩ |
        ⟨_, _, _, hc⟩ | ⟨h1, h2, h3, _⟩
    · rw [hc] at h; simp at h
    · rw [hc] at h; simp at h
    · rw [hc] at h; simp at h
    · exact ⟨h1, h2, h3⟩
  · intro ⟨h1, h2, h3⟩
    rcases process_batch_mode_cases args synth fs with ⟨hc, _⟩ | ⟨_, hc, _⟩ |
        ⟨_, _, hc, _⟩ | ⟨_, _, _, hc⟩
    · rw [h1] at hc; simp at hc
    · rw [h2] at hc; simp at hc
    · exact absurd hc h3
    · exact hc

/-! ## The claims -/

/-- **C1** (invariants): for every batch run that reached the entry loop
(with a reference source configured, the only case the spec's `BatchJob`
model admits), the orchestrator records exactly one outcome per attempted
entry, in document order and with matching ids — no entry is silently
dropped or counted twice, and one entry's failure never suppresses later
entries — and the success, skip and error counters sum to the total number
of entries. -/
theorem C1_one_outcome_per_entry (args : BatchArgs)
    (synth : SynthRequest → Except String Unit) (fs : FS)
    (href : entryCrashes args = false)
    (hpf : (process_batch_mode args synth fs).preflight = none) :
    (process_batch_mode args synth fs).crashed = false
    ∧ (process_batch_mode args synth fs).results.map EntryResult.id
        = (parse_srt (fs.content args.srt)).map SubtitleEntry.id
    ∧ (process_batch_mode args synth fs).results.length
        = (parse_srt (fs.content args.srt)).length
    ∧ ((process_batch_mode args synth fs).results.filter
          (fun r => r.outcome = Outcome.Success)).length
      + ((process_batch_mode args synth fs).results.filter
          (fun r => r.outcome = Outcome.Skipped)).length
      + ((process_batch_mode args synth fs).results.filter
          (fun r => r.outcome = Outcome.Error)).length
      = (parse_srt (fs.content args.srt)).length := by
  obtain ⟨hne, heq⟩ := process_batch_mode_eq args synth fs hpf
  have hids := runLoop_ids args synth href (parse_srt (fs.content args.srt)) fs
  have hlen : (runLoop args synth (parse_srt (fs.content args.srt)) fs).1.length
      = (parse_srt (fs.content args.srt)).length := by
    have := congrArg List.length hids.1
    simpa using this
  rw [heq]
  refine ⟨hids.2, hids.1, hlen, ?_⟩
  rw [outcome_counts_partition]
  exact hlen

/-- Witness for C1 at the five-entry fixture (entry 3's reference clip is
absent: four successes, one error, no drop, counters summing to 5). -/
theorem C1_one_outcome_per_entry_witness :
    (process_batch_mode argsBatch5 synthOk fsBatch5).crashed = false
    ∧ (process_batch_mode argsBatch5 synthOk fsBatch5).results.map EntryResult.id
        = (parse_srt (fsBatch5.content argsBatch5.srt)).map SubtitleEntry.id
    ∧ (process_batch_mode argsBatch5 synthOk fsBatch5).results.length
        = (parse_srt (fsBatch5.content argsBatch5.srt)).length
    ∧ ((process_batch_mode argsBatch5 synthOk fsBatch5).results.filter
          (fun r => r.outcome = Outcome.Success)).length
      + ((process_batch_mode argsBatch5 synthOk fsBatch5).results.filter
          (fun r => r.outcome = Outcome.Skipped)).length
      + ((process_batch_mode argsBatch5 synthOk fsBatch5).results.filter
          (fun r => r.outcome = Outcome.Error)).length
      = (parse_srt (fsBatch5.content argsBatch5.srt)).length :=
  C1_one_outcome_per_entry argsBatch5 synthOk fsBatch5 (by decide) (by decide)

/-- **C3** (functional correctness): `find_reference_audio` returns the
first candidate, in the fixed pattern order, that exists on the filesystem
(`none` exactly when no candidate exists), and in particular on a directory
holding both `segment_005.wav` and `segment5.mp3` with id 5 and prefix
`segment` it returns the path of `segment_005.wav`.  Determinism is
inherent: the resolver is a pure function of the filesystem and its
arguments, so repeated calls agree. -/
theorem C3_first_candidate (fs : FS) (dir : String) (sid : Int) (pref : String) :
    (find_reference_audio fs dir sid pref = none ↔
      ∀ c ∈ candidatePaths dir sid pref, fs.pathExists c = false)
    ∧ (∀ p, find_reference_audio fs dir sid pref = some p →
        fs.pathExists p = true
        ∧ ∃ l1 l2, candidatePaths dir sid pref = l1 ++ p :: l2
            ∧ ∀ c ∈ l1, fs.pathExists c = false)
    ∧ find_reference_audio fsPriority "d" 5 "segment" = some "d/segment_005.wav" := by
  refine ⟨?_, ?_, by decide⟩
  · unfold find_reference_audio
    rw [List.find?_eq_none]
    constructor
    · intro h c hc
      have := h c hc
      simpa using this
    · intro h c hc
      simp [h c hc]
  · intro p hp
    obtain ⟨hpe, l1, l2, hdec, hall⟩ := find?_eq_some_split _ _ _ hp
    exact ⟨hpe, l1, l2, hdec, hall⟩

/-- Witness for C3: resolving id 5 in the priority directory picks a path
that exists and is preceded only by non-existing candidates. -/
theorem C3_first_candidate_witness :
    fsPriority.pathExists "d/segment_005.wav" = true
    ∧ ∃ l1 l2, candidatePaths "d" 5 "segment" = l1 ++ "d/segment_005.wav" :: l2
        ∧ ∀ c ∈ l1, fsPriority.pathExists c = false :=
  (C3_first_candidate fsPriority "d" 5 "segment").2.1 "d/segment_005.wav" (by decide)

/-- **C4** (functional correctness): every request that reaches the
synthesis boundary carries the seed `base_seed + id` of its entry; two runs
with the same base seed therefore pass the identical seed for the same id,
and changing the base seed changes every per-entry seed while preserving the
difference between any two entries' seeds. -/
theorem C4_per_entry_seed :
    (∀ (args : BatchArgs) (synth : SynthRequest → Except String Unit) (fs : FS),
      ∀ r ∈ (process_batch_mode args synth fs).results, ∀ q, r.request = some q →
        q.seed = entrySeed args.seed r.id)
    ∧ (∀ (args args2 : BatchArgs) (synth synth2 : SynthRequest → Except String Unit)
        (fs fs2 : FS) (r r2 : EntryResult) (q q2 : SynthRequest),
        args.seed = args2.seed →
        r ∈ (process_batch_mode args synth fs).results →
        r2 ∈ (process_batch_mode args2 synth2 fs2).results →
        r.request = some q → r2.request = some q2 → r.id = r2.id →
        q.seed = q2.seed)
    ∧ (∀ b b2 i : Int, b ≠ b2 → entrySeed b i ≠ entrySeed b2 i)
    ∧ (∀ b b2 i j : Int, entrySeed b2 i - entrySeed b2 j = entrySeed b i - entrySeed b j) := by
  have hmain : ∀ (args : BatchArgs) (synth : SynthRequest → Except String Unit) (fs : FS),
      ∀ r ∈ (process_batch_mode args synth fs).results, ∀ q, r.request = some q →
        q.seed = entrySeed args.seed r.id := by
    intro args synth fs r hr q hq
    rcases process_batch_mode_results_cases args synth fs with h | h
    · rw [h] at hr; simp at hr
    · rw [h] at hr
      exact (runLoop_request_seed args synth _ fs r q hr hq).1
  refine ⟨hmain, ?_, ?_, ?_⟩
  · intro args args2 synth synth2 fs fs2 r r2 q q2 hseed hr hr2 hq hq2 hid
    rw [hmain args synth fs r hr q hq, hmain args2 synth2 fs2 r2 hr2 q2 hq2]
    unfold entrySeed
    rw [hseed, hid]
  · intro b b2 i hne
    unfold entrySeed
    omega
  · intro b b2 i j
    unfold entrySeed
    omega

/-- Witness for C4: the request issued for entry 1 of the two-entry batch
carries seed `42 + 1 = 43`. -/
theorem C4_per_entry_seed_witness :
    reqHello.seed = entrySeed argsPair.seed resHello.id :=
  C4_per_entry_seed.1 argsPair synthOk fsPair resHello (by decide) reqHello (by decide)

/-- **C8** (functional correctness): at the end of every batch run that
began processing, the summary is printed and reports `total` equal to the
number of results, the success/skip/error counters, and the success rate
`success_count / total` (rendered as a percentage).  `total` is always
positive for such runs — a parse yielding zero entries is rejected
pre-flight — so the `total = 0` proviso of the contract (rate defined as 0)
is vacuous. -/
theorem C8_summary_reported (args : BatchArgs)
    (synth : SynthRequest → Except String Unit) (fs : FS)
    (href : entryCrashes args = false)
    (hpf : (process_batch_mode args synth fs).preflight = none) :
    ∃ S : Summary,
      (process_batch_mode args synth fs).summary = some S
      ∧ S.total = (process_batch_mode args synth fs).results.length
      ∧ S.success_count = ((process_batch_mode args synth fs).results.filter
          (fun r => r.outcome = Outcome.Success)).length
      ∧ S.skip_count = ((process_batch_mode args synth fs).results.filter
          (fun r => r.outcome = Outcome.Skipped)).length
      ∧ S.error_count = ((process_batch_mode args synth fs).results.filter
          (fun r => r.outcome = Outcome.Error)).length
      ∧ 0 < S.total
      ∧ S.success_rate = some ((S.success_count : ℚ) / (S.total : ℚ) * 100) := by
  obtain ⟨hne, heq⟩ := process_batch_mode_eq args synth fs hpf
  have hids := runLoop_ids args synth href (parse_srt (fs.content args.srt)) fs
  have hlen : (runLoop args synth (parse_srt (fs.content args.srt)) fs).1.length
      = (parse_srt (fs.content args.srt)).length := by
    have := congrArg List.length hids.1
    simpa using this
  have hpos : 0 < (parse_srt (fs.content args.srt)).length :=
    List.length_pos.mpr hne
  refine ⟨summarize (runLoop args synth (parse_srt (fs.content args.srt)) fs).1
      (parse_srt (fs.content args.srt)).length, ?_⟩
  rw [heq]
  refine ⟨?_, ?_, ?_, ?_, ?_, ?_, ?_⟩ <;>
    simp [summarize, hids.2, hlen, hpos]

/-- Witness for C8 at the two-entry batch: summary printed with total 2,
both entries successful, rate `2/2*100`. -/
theorem C8_summary_reported_witness :
    ∃ S : Summary,
      (process_batch_mode argsPair synthOk fsPair).summary = some S
      ∧ S.total = (process_batch_mode argsPair synthOk fsPair).results.length
      ∧ S.success_count = ((process_batch_mode argsPair synthOk fsPair).results.filter
          (fun r => r.outcome = Outcome.Success)).length
      ∧ S.skip_count = ((process_batch_mode argsPair synthOk fsPair).results.filter
          (fun r => r.outcome = Outcome.Skipped)).length
      ∧ S.error_count = ((process_batch_mode argsPair synthOk fsPair).results.filter
          (fun r => r.outcome = Outcome.Error)).length
      ∧ 0 < S.total
      ∧ S.success_rate = some ((S.success_count : ℚ) / (S.total : ℚ) * 100) :=
  C8_summary_reported argsPair synthOk fsPair (by decide) (by decide)

/-- **C9** (error handling, implicit): the reference lookup happens before
the skip-existing check, so an entry whose reference audio cannot be
resolved is recorded as an `Error` even when `skip_existing` is set and its
output file already exists on disk. -/
theorem C9_ref_before_skip (args : BatchArgs)
    (synth : SynthRequest → Except String Unit) (fs : FS) (s : SubtitleEntry)
    (hap : args.audio_path = none) (hrd : args.reference_dir.isSome = true)
    (hfind : find_reference_audio fs (args.reference_dir.getD "") s.id args.audioPref = none)
    (hskip : args.skip_existing = true)
    (hout : fs.pathExists (outputPath args s.id) = true) :
    processEntry args synth fs s = some (⟨s.id, Outcome.Error, none, none⟩, fs) := by
  have hcr : entryCrashes args = false := by
    unfold entryCrashes
    rw [Option.isSome_iff_exists] at hrd
    obtain ⟨d, hd⟩ := hrd
    simp [hd]
  unfold processEntry
  rw [hcr]
  simp only [Bool.false_eq_true, if_false]
  unfold processEntryCore refLookup
  rw [hap]
  simp only [Option.isSome_none, Bool.false_eq_true, if_false, hfind]
  rfl

/-- Witness for C9: one entry, empty reference directory, `--skip-existing`
set and `out/clone_001.wav` already present — still an `Error`. -/
theorem C9_ref_before_skip_witness :
    processEntry argsOneMissing synthOk
      ⟨["subs.srt", "out/clone_001.wav"], ["refs"], fun _ => ""⟩ ⟨1, "t", "hello"⟩
      = some (⟨1, Outcome.Error, none, none⟩,
          ⟨["subs.srt", "out/clone_001.wav"], ["refs"], fun _ => ""⟩) :=
  C9_ref_before_skip argsOneMissing synthOk
    ⟨["subs.srt", "out/clone_001.wav"], ["refs"], fun _ => ""⟩ ⟨1, "t", "hello"⟩
    (by decide) (by decide) (by decide) (by decide) (by decide)

/-- **C10** (functional correctness, implicit): the parser enforces neither
uniqueness nor positivity of ids, and the output path depends only on the id
(plus the output prefix and directory); hence with two entries sharing id 5
the second synthesis writes to the very path the first wrote (overwriting
it), and with `skip_existing` set the second entry is `Skipped` instead. -/
theorem C10_duplicate_ids_overwrite :
    parse_srt srtDocDup = [⟨5, "t1", "foo"⟩, ⟨5, "t2", "bar"⟩]
    ∧ parse_srt "-2\n00:00 --> 00:01\nneg" = [⟨-2, "00:00 --> 00:01", "neg"⟩]
    ∧ (∀ (a a2 : BatchArgs) (i : Int), a.outputPref = a2.outputPref →
        a.output = a2.output → outputPath a i = outputPath a2 i)
    ∧ (process_batch_mode argsDup synthOk fsDup).results.map EntryResult.wrote
        = [some "out/clone_005.wav", some "out/clone_005.wav"]
    ∧ ((process_batch_mode argsDup synthOk fsDup).results.filterMap
        EntryResult.request).map SynthRequest.text = ["foo", "bar"]
    ∧ writesOf (process_batch_mode argsDup synthOk fsDup).results
        = ["out/clone_005.wav", "out/clone_005.wav"]
    ∧ (process_batch_mode argsDupSkip synthOk fsDup).results.map EntryResult.outcome
        = [Outcome.Success, Outcome.Skipped] := by
  refine ⟨by decide, by decide, ?_, by decide, by decide, by decide, by decide⟩
  intro a a2 i h1 h2
  unfold outputPath
  rw [h1, h2]

/-- Witness for C10: two argument records differing only in irrelevant
fields map id 5 to the same output path. -/
theorem C10_duplicate_ids_overwrite_witness :
    outputPath argsDup 5 = outputPath argsDupSkip 5 :=
  C10_duplicate_ids_overwrite.2.2.1 argsDup argsDupSkip 5 (by decide) (by decide)

/-- **C5, counterexample**: with `skip_existing` set and one entry whose
reference clip is missing, the first run records an `Error`; the second run
over the identical inputs (and the unchanged filesystem the first run left)
records `Error` again — not `Skipped` — refuting "records every entry as
Skipped".  (No file is written in either run.) -/
theorem C5_counterexample_second_run_not_all_skipped :
    (process_batch_mode argsOneMissing synthOk fsOneMissing).results
      = [⟨1, Outcome.Error, none, none⟩]
    ∧ (process_batch_mode argsOneMissing synthOk
        (process_batch_mode argsOneMissing synthOk fsOneMissing).fsAfter).results
      = [⟨1, Outcome.Error, none, none⟩]
    ∧ writesOf (process_batch_mode argsOneMissing synthOk
        (process_batch_mode argsOneMissing synthOk fsOneMissing).fsAfter).results = [] := by
  refine ⟨by decide, by decide, by decide⟩

/-- **C5, amended** (algebraic/relational): if a first run with
`skip_existing = true` (and a configured reference source) passes pre-flight
and records every entry as `Success`, then a second run on the filesystem it
left behind passes pre-flight, performs zero output writes, issues no
synthesis requests, records every entry as `Skipped`, and leaves the
filesystem unchanged. -/
theorem C5_amended_rerun_idempotent (args : BatchArgs)
    (synth : SynthRequest → Except String Unit) (fs : FS)
    (hskip : args.skip_existing = true) (hcr : entryCrashes args = false)
    (hpf : (process_batch_mode args synth fs).preflight = none)
    (hall : ∀ r ∈ (process_batch_mode args synth fs).results,
      r.outcome = Outcome.Success) :
    (process_batch_mode args synth
        (process_batch_mode args synth fs).fsAfter).preflight = none
    ∧ (process_batch_mode args synth
        (process_batch_mode args synth fs).fsAfter).results
      = (parse_srt (fs.content args.srt)).map
          (fun s => ⟨s.id, Outcome.Skipped, none, none⟩)
    ∧ writesOf (process_batch_mode args synth
        (process_batch_mode args synth fs).fsAfter).results = []
    ∧ ((process_batch_mode args synth
        (process_batch_mode args synth fs).fsAfter).results.filterMap
          EntryResult.request) = []
    ∧ (process_batch_mode args synth
        (process_batch_mode args synth fs).fsAfter).fsAfter
      = (process_batch_mode args synth fs).fsAfter := by
  obtain ⟨hne, heq⟩ := process_batch_mode_eq args synth fs hpf
  obtain ⟨h1, h2, _⟩ := (process_batch_mode_preflight_none_iff args synth fs).mp hpf
  set subs := parse_srt (fs.content args.srt) with hsubs
  rcases hrl : runLoop args synth subs fs with ⟨rs1, fsE, c1⟩
  rw [hrl] at heq
  have hfsE : (process_batch_mode args synth fs).fsAfter = fsE := by rw [heq]
  have hallrun : ∀ r ∈ rs1, r.outcome = Outcome.Success := by
    intro r hr
    apply hall
    rw [heq]
    exact hr
  have hmono := runLoop_fs args synth subs fs
  rw [hrl] at hmono
  obtain ⟨⟨w, hw0⟩, hdirs0, hcontent0⟩ := hmono
  have hw : fsE.files = w ++ fs.files := hw0
  have hdirs : fsE.dirs = fs.dirs := hdirs0
  have hcontent : fsE.content = fs.content := hcontent0
  have hsub : ∀ x ∈ fs.files, x ∈ fsE.files := by
    intro x hx
    rw [hw]
    simp [hx]
  have h1E : fsE.pathExists args.srt = true :=
    pathExists_mono fs fsE hsub hdirs args.srt h1
  have h2E : refCond args fsE = false := by
    unfold refCond at h2 ⊢
    cases hrd : truthyS args.reference_dir with
    | false => simp [hrd]
    | true =>
      rw [hrd] at h2
      cases hdir : (fs.isDir (args.reference_dir.getD "")) with
      | true =>
        have hdirE : fsE.isDir (args.reference_dir.getD "") = true := by
          unfold FS.isDir at hdir ⊢
          rw [hdirs]
          exact hdir
        simp [hdirE]
      | false =>
        rw [hdir] at h2
        simp only [Bool.not_false, Bool.true_and, Bool.not_eq_false] at h2
        have h2a : (truthyS args.audio_path
            && fs.pathExists (args.audio_path.getD "")) = true := by
          simpa using h2
        have hap : truthyS args.audio_path = true :=
          (Bool.and_eq_true_iff.mp h2a).1
        have hex : fs.pathExists (args.audio_path.getD "") = true :=
          (Bool.and_eq_true_iff.mp h2a).2
        have hexE := pathExists_mono fs fsE hsub hdirs _ hex
        simp [hap, hexE]
  have hparseE : parse_srt (fsE.content args.srt) = subs := by
    rw [hcontent]
  have hpfE : (process_batch_mode args synth fsE).preflight = none := by
    rw [process_batch_mode_preflight_none_iff]
    refine ⟨h1E, h2E, ?_⟩
    rw [hparseE]
    exact hne
  obtain ⟨hneE, heqE⟩ := process_batch_mode_eq args synth fsE hpfE
  rw [hparseE] at heqE
  have hrerun : runLoop args synth subs fsE =
      (subs.map (fun s => ⟨s.id, Outcome.Skipped, none, none⟩), fsE, false) := by
    have h0 := runLoop_rerun_skips args synth hskip hcr subs fs (by rw [hrl]; exact hallrun)
    rw [hrl] at h0
    exact h0
  rw [hrerun] at heqE
  rw [hfsE, heqE]
  refine ⟨rfl, rfl, ?_, ?_, rfl⟩
  · unfold writesOf
    simp
  · simp

/-- Witness for the amended C5 at the two-entry batch: the first run
succeeds on both entries; the rerun skips both, writes nothing, and calls
the engine zero times. -/
theorem C5_amended_rerun_idempotent_witness :
    (process_batch_mode argsPair synthOk
        (process_batch_mode argsPair synthOk fsPair).fsAfter).preflight = none
    ∧ (process_batch_mode argsPair synthOk
        (process_batch_mode argsPair synthOk fsPair).fsAfter).results
      = (parse_srt (fsPair.content argsPair.srt)).map
          (fun s => ⟨s.id, Outcome.Skipped, none, none⟩)
    ∧ writesOf (process_batch_mode argsPair synthOk
        (process_batch_mode argsPair synthOk fsPair).fsAfter).results = []
    ∧ ((process_batch_mode argsPair synthOk
        (process_batch_mode argsPair synthOk fsPair).fsAfter).results.filterMap
          EntryResult.request) = []
    ∧ (process_batch_mode argsPair synthOk
        (process_batch_mode argsPair synthOk fsPair).fsAfter).fsAfter
      = (process_batch_mode argsPair synthOk fsPair).fsAfter :=
  C5_amended_rerun_idempotent argsPair synthOk fsPair (by decide) (by decide)
    (by decide) (by decide)

/-- **C6, counterexample**: with no reference directory and a shared audio
path that does not exist on disk (so neither a reference directory nor a
shared audio path exists), the run is **not** stopped pre-flight: it
processes the single entry and attempts synthesis (a request crosses the
boundary and fails), contradicting "terminate before any entry is processed
or any synthesis attempted". -/
theorem C6_counterexample_missing_audio_path_not_preflight :
    (process_batch_mode argsNoAudio synthFail fsNoAudio).preflight = none
    ∧ (process_batch_mode argsNoAudio synthFail fsNoAudio).results
      = [⟨1, Outcome.Error,
          some ⟨"hello", "", "missing.wav", "outputs_cosyvoice/clone_001.wav", "", 43⟩,
          none⟩] := by
  exact ⟨by decide, by decide⟩

/-- **C6, amended** (error handling): the run terminates pre-flight, with
empty results and no summary, in exactly these cases: (a) the subtitle file
does not exist; (b) a reference directory was supplied but is not a
directory, and no existing shared audio path was supplied; (c) parsing
yields zero valid entries.  A nonexistent shared audio path alone (no
reference directory supplied) is NOT caught pre-flight — each entry then
fails at synthesis instead. -/
theorem C6_amended_preflight (args : BatchArgs)
    (synth : SynthRequest → Except String Unit) (fs : FS) :
    (fs.pathExists args.srt = false →
      process_batch_mode args synth fs = ⟨some .srtMissing, [], false, fs, none⟩)
    ∧ (fs.pathExists args.srt = true → refCond args fs = true →
      process_batch_mode args synth fs = ⟨some .refMissing, [], false, fs, none⟩)
    ∧ (fs.pathExists args.srt = true → refCond args fs = false →
      parse_srt (fs.content args.srt) = [] →
      process_batch_mode args synth fs = ⟨some .noSubtitles, [], false, fs, none⟩) := by
  refine ⟨?_, ?_, ?_⟩
  · intro h1
    rcases process_batch_mode_cases args synth fs with ⟨_, hc⟩ | ⟨ha, _, _⟩ |
        ⟨ha, _, _, _⟩ | ⟨ha, _, _, _⟩
    · exact hc
    · rw [ha] at h1; simp at h1
    · rw [ha] at h1; simp at h1
    · rw [ha] at h1; simp at h1
  · intro h1 h2
    rcases process_batch_mode_cases args synth fs with ⟨ha, _⟩ | ⟨_, _, hc⟩ |
        ⟨_, hb, _, _⟩ | ⟨_, hb, _, _⟩
    · rw [ha] at h1; simp at h1
    · exact hc
    · rw [hb] at h2; simp at h2
    · rw [hb] at h2; simp at h2
  · intro h1 h2 h3
    rcases process_batch_mode_cases args synth fs with ⟨ha, _⟩ | ⟨_, hb, _⟩ |
        ⟨_, _, _, hc⟩ | ⟨_, _, hne, _⟩
    · rw [ha] at h1; simp at h1
    · rw [hb] at h2; simp at h2
    · exact hc
    · exact absurd h3 hne

/-- Witness for the amended C6, exercising all three pre-flight rejections
at concrete inputs: missing SRT file, reference directory that is not a
directory, and a document with no valid entries. -/
theorem C6_amended_preflight_witness :
    process_batch_mode argsBatch5 synthOk fsPriority
      = ⟨some .srtMissing, [], false, fsPriority, none⟩
    ∧ process_batch_mode argsBadDir synthOk fsNoAudio
      = ⟨some .refMissing, [], false, fsNoAudio, none⟩
    ∧ process_batch_mode argsBatch5 synthOk fsGarbage
      = ⟨some .noSubtitles, [], false, fsGarbage, none⟩ :=
  ⟨(C6_amended_preflight argsBatch5 synthOk fsPriority).1 (by decide),
   (C6_amended_preflight argsBadDir synthOk fsNoAudio).2.1 (by decide) (by decide),
   (C6_amended_preflight argsBatch5 synthOk fsGarbage).2.2 (by decide) (by decide)
     (by decide)⟩

/-- **C7, counterexample**: the two-line block `"hello\nworld"` fails to
parse (fewer than 3 lines) and is skipped, but no diagnostic is emitted for
it — the warning is printed only in the `except` branch, which a short block
never reaches — refuting "a diagnostic message being emitted for that
block". -/
theorem C7_counterexample_short_block_silent :
    parseBlock ("hello\nworld".toList) = BlockResult.skippedSilent
    ∧ parse_srt_blocks "hello\nworld" = [BlockResult.skippedSilent]
    ∧ parse_srt_diagCount "hello\nworld" = 0
    ∧ parse_srt "hello\nworld" = [] := by
  exact ⟨by decide, by decide, by decide, by decide⟩

/-- **C7, amended** (error handling): every block is processed (one
`BlockResult` per block, so a failing block never halts parsing of
subsequent blocks); a block is skipped silently exactly when it has fewer
than 3 lines, and skipped **with** a diagnostic exactly when it has at least
3 lines and its first line is not an integer. -/
theorem C7_amended_block_diagnostics (content : String) :
    (parse_srt_blocks content).length = (splitBlocks content).length
    ∧ ∀ b ∈ splitBlocks content,
        (parseBlock b = BlockResult.skippedSilent ↔
          (splitLines (pyStripL b)).length < 3)
        ∧ (parseBlock b = BlockResult.skippedDiag ↔
          3 ≤ (splitLines (pyStripL b)).length
          ∧ pyInt? (pyStripL ((splitLines (pyStripL b)).headI)) = none) := by
  constructor
  · unfold parse_srt_blocks
    exact List.length_map _ _
  · intro b _
    rcases hl : splitLines (pyStripL b) with _ | ⟨l0, _ | ⟨l1, _ | ⟨l2, rest⟩⟩⟩
    · simp [parseBlock, hl]
    · simp [parseBlock, hl]
    · simp [parseBlock, hl]
    · cases hint : pyInt? (pyStripL l0) with
      | none => simp [parseBlock, hl, hint]
      | some n => simp [parseBlock, hl, hint]

/-- Witness for the amended C7 on a document with one good block and one
2-line block: both blocks yield a result, and the 2-line block `ab` is
silently skipped (no diagnostic) while a 3-line block with a non-integer id
would be skipped with one. -/
theorem C7_amended_block_diagnostics_witness :
    (parse_srt_blocks "1\nt\nx\n\nab").length = (splitBlocks "1\nt\nx\n\nab").length
    ∧ ((parseBlock ['a', 'b'] = BlockResult.skippedSilent ↔
          (splitLines (pyStripL ['a', 'b'])).length < 3)
        ∧ (parseBlock ['a', 'b'] = BlockResult.skippedDiag ↔
          3 ≤ (splitLines (pyStripL ['a', 'b'])).length
          ∧ pyInt? (pyStripL ((splitLines (pyStripL ['a', 'b'])).headI)) = none)) :=
  ⟨(C7_amended_block_diagnostics "1\nt\nx\n\nab").1,
   (C7_amended_block_diagnostics "1\nt\nx\n\nab").2 ['a', 'b'] (by decide)⟩

/-! ## Parser round trip: string lemmas -/

/-- `dropWhile` never lengthens a list. -/
theorem length_dropWhile_le_self (p : Char → Bool) :
    ∀ l : List Char, (l.dropWhile p).length ≤ l.length := by
  intro l
  induction l with
  | nil => simp
  | cons c t ih =>
    rw [List.dropWhile_cons]
    by_cases h : p c
    · simp only [h, if_true]
      exact Nat.le_trans ih (Nat.le_succ _)
    · simp [h]

/-- A `dropWhile` that preserves length drops nothing. -/
theorem dropWhile_eq_self_of_length (p : Char → Bool) :
    ∀ l : List Char, (l.dropWhile p).length = l.length → l.dropWhile p = l := by
  intro l
  induction l with
  | nil => intro _; rfl
  | cons c t ih =>
    intro h
    rw [List.dropWhile_cons] at h ⊢
    by_cases hc : p c
    · exfalso
      simp only [hc, if_true] at h
      have hle := length_dropWhile_le_self p t
      rw [List.length_cons] at h
      omega
    · simp [hc]

/-- A strip-fixed list loses nothing at its front. -/
theorem strip_fix_dropWhile (l : List Char) (h : pyStripL l = l) :
    l.dropWhile isPyWs = l := by
  have hlen := congrArg List.length h
  unfold pyStripL at hlen
  rw [List.length_reverse] at hlen
  have h2 : ((l.dropWhile isPyWs).reverse.dropWhile isPyWs).length
      ≤ (l.dropWhile isPyWs).reverse.length := length_dropWhile_le_self _ _
  rw [List.length_reverse] at h2
  have h3 : (l.dropWhile isPyWs).length ≤ l.length := length_dropWhile_le_self _ _
  exact dropWhile_eq_self_of_length _ l (by omega)

/-- A strip-fixed list loses nothing at its back either. -/
theorem strip_fix_dropWhile_rev (l : List Char) (h : pyStripL l = l) :
    l.reverse.dropWhile isPyWs = l.reverse := by
  have h1 := strip_fix_dropWhile l h
  unfold pyStripL at h
  rw [h1] at h
  have := congrArg List.reverse h
  rw [List.reverse_reverse] at this
  exact this

/-- The head of a strip-fixed list is not whitespace. -/
theorem head_not_ws_of_strip (l : List Char) (c : Char) (h : pyStripL l = l)
    (hc : l.head? = some c) : isPyWs c = false := by
  have h1 := strip_fix_dropWhile l h
  cases l with
  | nil => simp at hc
  | cons x t =>
    simp only [List.head?_cons, Option.some.injEq] at hc
    rw [← hc]
    rw [List.dropWhile_cons] at h1
    by_cases hx : isPyWs x
    · exfalso
      rw [if_pos hx] at h1
      have hle := length_dropWhile_le_self isPyWs t
      have hlen := congrArg List.length h1
      rw [List.length_cons] at hlen
      omega
    · simpa using hx

/-- The last element of a strip-fixed list is not whitespace. -/
theorem getLast_not_ws_of_strip (l : List Char) (c : Char) (h : pyStripL l = l)
    (hc : l.getLast? = some c) : isPyWs c = false := by
  have h1 := strip_fix_dropWhile_rev l h
  rw [← List.head?_reverse] at hc
  cases hr : l.reverse with
  | nil => rw [hr] at hc; simp at hc
  | cons x t =>
    rw [hr] at hc h1
    simp only [List.head?_cons, Option.some.injEq] at hc
    rw [← hc]
    rw [List.dropWhile_cons] at h1
    by_cases hx : isPyWs x
    · exfalso
      rw [if_pos hx] at h1
      have hle := length_dropWhile_le_self isPyWs t
      have hlen := congrArg List.length h1
      rw [List.length_cons] at hlen
      omega
    · simpa using hx

/-- A list whose ends are not whitespace is strip-fixed. -/
theorem strip_noop (l : List Char)
    (hh : ∀ c, l.head? = some c → isPyWs c = false)
    (hl : ∀ c, l.getLast? = some c → isPyWs c = false) : pyStripL l = l := by
  unfold pyStripL
  have h1 : l.dropWhile isPyWs = l := by
    cases l with
    | nil => rfl
    | cons x t =>
      rw [List.dropWhile_cons, if_neg]
      simp [hh x rfl]
  rw [h1]
  have h2 : l.reverse.dropWhile isPyWs = l.reverse := by
    cases hr : l.reverse with
    | nil => rfl
    | cons x t =>
      rw [List.dropWhile_cons, if_neg]
      have hx : l.getLast? = some x := by
        rw [← List.head?_reverse, hr]
        rfl
      simp [hl x hx]
  rw [h2, List.reverse_reverse]

/-! ## Parser round trip: line splitting and joining -/

/-- Splitting a newline-free list yields that single line. -/
theorem splitLines_no_nl : ∀ (l : List Char), '\n' ∉ l → splitLines l = [l] := by
  intro l
  induction l with
  | nil => intro _; rfl
  | cons c t ih =>
    intro h
    have hc : ¬(c = '\n') := by
      intro hc; exact h (by simp [hc])
    have ht : '\n' ∉ t := fun hm => h (List.mem_cons_of_mem c hm)
    unfold splitLines
    rw [if_neg hc, ih ht]

/-- Splitting consumes the first newline as a line boundary. -/
theorem splitLines_append_nl :
    ∀ (l r : List Char), '\n' ∉ l → splitLines (l ++ '\n' :: r) = l :: splitLines r := by
  intro l
  induction l with
  | nil =>
    intro r _
    show splitLines ('\n' :: r) = [] :: splitLines r
    conv_lhs => unfold splitLines
    rw [if_pos rfl]
  | cons c t ih =>
    intro r h
    have hc : ¬(c = '\n') := by
      intro hc; exact h (by simp [hc])
    have ht : '\n' ∉ t := fun hm => h (List.mem_cons_of_mem c hm)
    show splitLines (c :: (t ++ '\n' :: r)) = (c :: t) :: splitLines r
    conv_lhs => unfold splitLines
    rw [if_neg hc, ih r ht]

/-- Splitting inverts joining, for newline-free lines. -/
theorem splitLines_joinNl :
    ∀ (lines : List (List Char)), lines ≠ [] → (∀ l ∈ lines, '\n' ∉ l) →
      splitLines (joinNl lines) = lines := by
  intro lines
  induction lines with
  | nil => intro h; exact absurd rfl h
  | cons l ls ih =>
    intro _ h
    cases ls with
    | nil =>
      show splitLines (joinNl [l]) = [l]
      exact splitLines_no_nl l (h l (by simp))
    | cons l2 ls2 =>
      show splitLines (l ++ '\n' :: joinNl (l2 :: ls2)) = l :: l2 :: ls2
      rw [splitLines_append_nl l _ (h l (by simp))]
      rw [ih (by simp) (fun x hx => h x (List.mem_cons_of_mem l hx))]

/-- Joining a nonempty block starts with its first line. -/
theorem joinNl_cons_ex (l : List Char) (ls : List (List Char)) :
    ∃ t, joinNl (l :: ls) = l ++ t := by
  cases ls with
  | nil => exact ⟨[], by simp [joinNl]⟩
  | cons l2 ls2 => exact ⟨'\n' :: joinNl (l2 :: ls2), rfl⟩

/-- The rendering of a block whose first line is nonempty is nonempty, with
the first line's head at its head. -/
theorem joinNl_head (l : List Char) (ls : List (List Char)) (hl : l ≠ []) :
    (joinNl (l :: ls)).head? = l.head? := by
  obtain ⟨t, ht⟩ := joinNl_cons_ex l ls
  rw [ht]
  cases l with
  | nil => exact absurd rfl hl
  | cons c cs => rfl

/-- The last element of an appended list with nonempty right part. -/
theorem getLast?_append_right (x y : List Char) (hy : y ≠ []) :
    (x ++ y).getLast? = y.getLast? := by
  rw [← List.head?_reverse, ← List.head?_reverse, List.reverse_append]
  cases hyr : y.reverse with
  | nil =>
    exfalso
    apply hy
    have := congrArg List.reverse hyr
    simpa using this
  | cons c t => rfl

/-- The rendering of a well-formed block ends with the last line's last
character, which is not whitespace. -/
theorem joinNl_getLast_not_ws :
    ∀ (lines : List (List Char)), (∀ l ∈ lines, WFLine l) →
      ∀ c, (joinNl lines).getLast? = some c → isPyWs c = false := by
  intro lines
  induction lines with
  | nil => intro _ c hc; simp [joinNl] at hc
  | cons l ls ih =>
    intro h c hc
    cases ls with
    | nil =>
      have hwf := h l (by simp)
      exact getLast_not_ws_of_strip l c hwf.2.2 hc
    | cons l2 ls2 =>
      have hjoin : joinNl (l :: l2 :: ls2) = l ++ '\n' :: joinNl (l2 :: ls2) := rfl
      rw [hjoin] at hc
      have hne2 : joinNl (l2 :: ls2) ≠ [] := by
        obtain ⟨t, ht⟩ := joinNl_cons_ex l2 ls2
        have hl2 : l2 ≠ [] := (h l2 (by simp)).1
        rw [ht]
        intro hcontra
        exact hl2 (List.append_eq_nil.mp hcontra).1
      rw [getLast?_append_right _ _ (by simp)] at hc
      have hstep : ('\n' :: joinNl (l2 :: ls2)).getLast?
          = (joinNl (l2 :: ls2)).getLast? := getLast?_append_right ['\n'] _ hne2
      rw [hstep] at hc
      exact ih (fun x hx => h x (List.mem_cons_of_mem l hx)) c hc

/-- Space-joining a nonempty block starts with its first line. -/
theorem joinSp_cons_ex (l : List Char) (ls : List (List Char)) :
    ∃ t, joinSp (l :: ls) = l ++ t := by
  cases ls with
  | nil => exact ⟨[], by simp [joinSp]⟩
  | cons l2 ls2 => exact ⟨' ' :: joinSp (l2 :: ls2), rfl⟩

/-- Head of a space-join of lines. -/
theorem joinSp_head (l : List Char) (ls : List (List Char)) (hl : l ≠ []) :
    (joinSp (l :: ls)).head? = l.head? := by
  obtain ⟨t, ht⟩ := joinSp_cons_ex l ls
  rw [ht]
  cases l with
  | nil => exact absurd rfl hl
  | cons c cs => rfl

/-- The space-join of well-formed lines ends with a non-whitespace
character. -/
theorem joinSp_getLast_not_ws :
    ∀ (lines : List (List Char)), (∀ l ∈ lines, WFLine l) →
      ∀ c, (joinSp lines).getLast? = some c → isPyWs c = false := by
  intro lines
  induction lines with
  | nil => intro _ c hc; simp [joinSp] at hc
  | cons l ls ih =>
    intro h c hc
    cases ls with
    | nil =>
      have hwf := h l (by simp)
      exact getLast_not_ws_of_strip l c hwf.2.2 hc
    | cons l2 ls2 =>
      have hjoin : joinSp (l :: l2 :: ls2) = l ++ ' ' :: joinSp (l2 :: ls2) := rfl
      rw [hjoin] at hc
      have hne2 : joinSp (l2 :: ls2) ≠ [] := by
        obtain ⟨t, ht⟩ := joinSp_cons_ex l2 ls2
        have hl2 : l2 ≠ [] := (h l2 (by simp)).1
        rw [ht]
        intro hcontra
        exact hl2 (List.append_eq_nil.mp hcontra).1
      rw [getLast?_append_right _ _ (by simp)] at hc
      have hstep : (' ' :: joinSp (l2 :: ls2)).getLast?
          = (joinSp (l2 :: ls2)).getLast? := getLast?_append_right [' '] _ hne2
      rw [hstep] at hc
      exact ih (fun x hx => h x (List.mem_cons_of_mem l hx)) c hc

/-- The space-join of well-formed lines is strip-fixed. -/
theorem joinSp_strip_fix (l : List Char) (ls : List (List Char))
    (h : ∀ x ∈ l :: ls, WFLine x) :
    pyStripL (joinSp (l :: ls)) = joinSp (l :: ls) := by
  apply strip_noop
  · intro c hc
    rw [joinSp_head l ls (h l (by simp)).1] at hc
    exact head_not_ws_of_strip l c (h l (by simp)).2.2 hc
  · intro c hc
    exact joinSp_getLast_not_ws (l :: ls) h c hc

/-- The rendering of a well-formed block is strip-fixed. -/
theorem joinNl_strip_fix (l : List Char) (ls : List (List Char))
    (h : ∀ x ∈ l :: ls, WFLine x) :
    pyStripL (joinNl (l :: ls)) = joinNl (l :: ls) := by
  apply strip_noop
  · intro c hc
    rw [joinNl_head l ls (h l (by simp)).1] at hc
    exact head_not_ws_of_strip l c (h l (by simp)).2.2 hc
  · intro c hc
    exact joinNl_getLast_not_ws (l :: ls) h c hc

/-- On the rendering of a well-formed block, the parser does exactly what
the specification's block contract says. -/
theorem parseBlock_joinNl (b : List (List Char)) (h : WFBlock b) :
    parseBlock (joinNl b) = expectedResult b := by
  obtain ⟨hne, hlines⟩ := h
  cases b with
  | nil => exact absurd rfl hne
  | cons l0 bs =>
    have hstrip : pyStripL (joinNl (l0 :: bs)) = joinNl (l0 :: bs) :=
      joinNl_strip_fix l0 bs hlines
    have hsplit : splitLines (joinNl (l0 :: bs)) = l0 :: bs :=
      splitLines_joinNl (l0 :: bs) (by simp) (fun x hx => (hlines x hx).2.1)
    unfold parseBlock
    rw [hstrip, hsplit]
    cases bs with
    | nil => rfl
    | cons l1 bs2 =>
      cases bs2 with
      | nil => rfl
      | cons l2 rest =>
        dsimp only
        rw [(hlines l0 (by simp)).2.2]
        rw [(hlines l1 (by simp)).2.2]
        rw [joinSp_strip_fix l2 rest
          (fun x hx => hlines x (by simp [List.mem_cons] at hx ⊢; tauto))]
        rfl

/-! ## Parser round trip: the block scanner -/

/-- The scanner on an exhausted input emits the accumulated block. -/
theorem splitBlocksF_nil (fuel : Nat) (acc : List Char) :
    splitBlocksF fuel acc [] = [acc.reverse] := by
  cases fuel with
  | zero => simp [splitBlocksF]
  | succ f => rfl

/-- The scanner moves newline-free characters into the accumulator. -/
theorem splitBlocksF_chars :
    ∀ (l : List Char) (fuel : Nat) (acc tail : List Char),
      '\n' ∉ l → (l ++ tail).length ≤ fuel →
      splitBlocksF fuel acc (l ++ tail)
        = splitBlocksF (fuel - l.length) (l.reverse ++ acc) tail := by
  intro l
  induction l with
  | nil => intro fuel acc tail _ _; simp
  | cons c cs ih =>
    intro fuel acc tail hnl hlen
    cases fuel with
    | zero =>
      exfalso
      rw [List.length_append, List.length_cons] at hlen
      omega
    | succ f =>
      have hc : ¬(c = '\n') := fun hcc => hnl (by simp [hcc])
      have hlen2 : (cs ++ tail).length ≤ f := by
        rw [List.length_append] at hlen ⊢
        rw [List.length_cons] at hlen
        omega
      have hfuel : f + 1 - (c :: cs).length = f - cs.length := by
        rw [List.length_cons]
        omega
      have hacc : (c :: cs).reverse ++ acc = cs.reverse ++ (c :: acc) := by
        rw [List.reverse_cons, List.append_assoc]
        rfl
      rw [hfuel, hacc,
        ← ih f (c :: acc) tail (fun hm => hnl (List.mem_cons_of_mem c hm)) hlen2]
      rw [List.cons_append]
      conv_lhs => unfold splitBlocksF
      rw [if_neg hc]

/-- At a newline followed by a non-whitespace character (or the end), the
scanner keeps scanning: no separator starts here. -/
theorem splitBlocksF_nl_cont (fuel : Nat) (acc rest : List Char)
    (h : ∀ c, rest.head? = some c → isPyWs c = false) :
    splitBlocksF (fuel + 1) acc ('\n' :: rest) = splitBlocksF fuel ('\n' :: acc) rest := by
  have hrun : rest.takeWhile isPyWs = [] := by
    cases rest with
    | nil => rfl
    | cons c t =>
      rw [List.takeWhile_cons, if_neg]
      simp [h c rfl]
  conv_lhs => unfold splitBlocksF
  rw [if_pos rfl]
  simp [hrun]

/-- At a blank-line separator (two newlines, then a non-whitespace character
or the end), the scanner emits the accumulated block and restarts. -/
theorem splitBlocksF_sep (fuel : Nat) (acc rest : List Char)
    (h : ∀ c, rest.head? = some c → isPyWs c = false) :
    splitBlocksF (fuel + 2) acc ('\n' :: '\n' :: rest)
      = acc.reverse :: splitBlocksF (fuel + 1) [] rest := by
  have hrest : rest.takeWhile isPyWs = [] := by
    cases rest with
    | nil => rfl
    | cons c t =>
      rw [List.takeWhile_cons, if_neg]
      simp [h c rfl]
  have hrun : ('\n' :: rest).takeWhile isPyWs = ['\n'] := by
    rw [List.takeWhile_cons, if_pos (by decide), hrest]
  conv_lhs => unfold splitBlocksF
  rw [if_pos rfl]
  simp only [hrun]
  norm_num

/-- The scanner passes over a rendered block without splitting it (each
internal newline is followed by the next line's non-whitespace head). -/
theorem splitBlocksF_block :
    ∀ (lines : List (List Char)), (∀ l ∈ lines, WFLine l) →
      ∀ (fuel : Nat) (acc tail : List Char), (joinNl lines ++ tail).length ≤ fuel →
      splitBlocksF fuel acc (joinNl lines ++ tail)
        = splitBlocksF (fuel - (joinNl lines).length) ((joinNl lines).reverse ++ acc) tail := by
  intro lines
  induction lines with
  | nil => intro _ fuel acc tail _; simp [joinNl]
  | cons l ls ih =>
    intro h fuel acc tail hlen
    cases ls with
    | nil =>
      exact splitBlocksF_chars l fuel acc tail (h l (by simp)).2.1 hlen
    | cons l2 ls2 =>
      have hJ : joinNl (l :: l2 :: ls2) = l ++ '\n' :: joinNl (l2 :: ls2) := rfl
      have hJlen : (joinNl (l :: l2 :: ls2)).length
          = l.length + ((joinNl (l2 :: ls2)).length + 1) := by
        rw [hJ, List.length_append, List.length_cons]
      have hlen0 := hlen
      rw [List.length_append, hJlen] at hlen0
      -- Step over the first line.
      have hlist : joinNl (l :: l2 :: ls2) ++ tail
          = l ++ '\n' :: (joinNl (l2 :: ls2) ++ tail) := by
        rw [hJ, List.append_assoc, List.cons_append]
      have hlen1 : (l ++ '\n' :: (joinNl (l2 :: ls2) ++ tail)).length ≤ fuel := by
        rw [← hlist]; exact hlen
      rw [hlist, splitBlocksF_chars l fuel acc ('\n' :: (joinNl (l2 :: ls2) ++ tail))
        (h l (by simp)).2.1 hlen1]
      -- Step over the newline.
      obtain ⟨k, hk⟩ : ∃ k, fuel - l.length = k + 1 :=
        ⟨fuel - l.length - 1, by omega⟩
      have hheadJ : ∀ c, (joinNl (l2 :: ls2) ++ tail).head? = some c →
          isPyWs c = false := by
        obtain ⟨t, ht⟩ := joinNl_cons_ex l2 ls2
        intro c hc
        rw [ht, List.append_assoc] at hc
        have hl2 := h l2 (by simp)
        cases hl2c : l2 with
        | nil => exact absurd hl2c hl2.1
        | cons c0 cs0 =>
          rw [hl2c] at hc
          simp only [List.cons_append, List.head?_cons, Option.some.injEq] at hc
          rw [← hc]
          exact head_not_ws_of_strip l2 c0 hl2.2.2 (by rw [hl2c]; rfl)
      rw [hk, splitBlocksF_nl_cont k (l.reverse ++ acc) _ hheadJ]
      -- Step over the remaining lines by induction.
      rw [ih (fun x hx => h x (List.mem_cons_of_mem l hx)) k
        ('\n' :: (l.reverse ++ acc)) tail
        (by rw [List.length_append]; omega)]
      -- Align fuel and accumulator.
      have hfuel2 : k - (joinNl (l2 :: ls2)).length
          = fuel - (joinNl (l :: l2 :: ls2)).length := by
        rw [hJlen]; omega
      have hacc2 : (joinNl (l2 :: ls2)).reverse ++ ('\n' :: (l.reverse ++ acc))
          = (joinNl (l :: l2 :: ls2)).reverse ++ acc := by
        rw [hJ, List.reverse_append, List.reverse_cons, List.append_assoc]
        simp [List.append_assoc]
      rw [hfuel2, hacc2]

/-- A rendered document starts with its first block. -/
theorem renderDoc_cons_ex (b : List (List Char)) (bs : List (List (List Char))) :
    ∃ t, renderDoc (b :: bs) = joinNl b ++ t := by
  cases bs with
  | nil => exact ⟨[], by simp [renderDoc]⟩
  | cons b1 bs1 => exact ⟨'\n' :: '\n' :: renderDoc (b1 :: bs1), rfl⟩

/-- A rendered document led by a well-formed block is nonempty. -/
theorem renderDoc_ne_nil (b : List (List Char)) (bs : List (List (List Char)))
    (hb : WFBlock b) : renderDoc (b :: bs) ≠ [] := by
  obtain ⟨t, ht⟩ := renderDoc_cons_ex b bs
  rw [ht]
  cases hbc : b with
  | nil => exact absurd hbc hb.1
  | cons l ls =>
    obtain ⟨t2, ht2⟩ := joinNl_cons_ex l ls
    rw [ht2]
    intro hcontra
    rw [List.append_assoc] at hcontra
    exact (hb.2 l (by rw [hbc]; simp)).1 (List.append_eq_nil.mp hcontra).1

/-- A rendered document led by a well-formed block starts with a
non-whitespace character. -/
theorem renderDoc_head_not_ws (b : List (List Char)) (bs : List (List (List Char)))
    (hb : WFBlock b) :
    ∀ c, (renderDoc (b :: bs)).head? = some c → isPyWs c = false := by
  obtain ⟨t, ht⟩ := renderDoc_cons_ex b bs
  intro c hc
  rw [ht] at hc
  cases hbc : b with
  | nil => exact absurd hbc hb.1
  | cons l ls =>
    rw [hbc] at hc
    have hl := hb.2 l (by rw [hbc]; simp)
    obtain ⟨t2, ht2⟩ := joinNl_cons_ex l ls
    rw [ht2, List.append_assoc] at hc
    cases hlc : l with
    | nil => exact absurd hlc hl.1
    | cons c0 cs0 =>
      rw [hlc] at hc
      simp only [List.cons_append, List.head?_cons, Option.some.injEq] at hc
      rw [← hc]
      exact head_not_ws_of_strip l c0 hl.2.2 (by rw [hlc]; rfl)

/-- A rendered document of well-formed blocks ends with a non-whitespace
character. -/
theorem renderDoc_getLast_not_ws :
    ∀ (bs : List (List (List Char))) (b : List (List Char)),
      WFBlock b → (∀ x ∈ bs, WFBlock x) →
      ∀ c, (renderDoc (b :: bs)).getLast? = some c → isPyWs c = false := by
  intro bs
  induction bs with
  | nil =>
    intro b hb _ c hc
    exact joinNl_getLast_not_ws b hb.2 c hc
  | cons b1 bs1 ih =>
    intro b hb hbs c hc
    have hD : renderDoc (b :: b1 :: bs1)
        = joinNl b ++ '\n' :: '\n' :: renderDoc (b1 :: bs1) := rfl
    rw [hD] at hc
    have hne1 : renderDoc (b1 :: bs1) ≠ [] := renderDoc_ne_nil b1 bs1 (hbs b1 (by simp))
    rw [getLast?_append_right _ _ (by simp)] at hc
    have hstep : ('\n' :: '\n' :: renderDoc (b1 :: bs1)).getLast?
        = (renderDoc (b1 :: bs1)).getLast? :=
      getLast?_append_right ['\n', '\n'] _ hne1
    rw [hstep] at hc
    exact ih b1 (hbs b1 (by simp)) (fun x hx => hbs x (List.mem_cons_of_mem b1 hx)) c hc

/-- The scanner recovers exactly the rendered blocks of a well-formed
document. -/
theorem splitBlocksF_doc :
    ∀ (bs : List (List (List Char))) (b0 : List (List Char)),
      WFBlock b0 → (∀ b ∈ bs, WFBlock b) →
      ∀ (fuel : Nat) (acc : List Char), (renderDoc (b0 :: bs)).length ≤ fuel →
      splitBlocksF fuel acc (renderDoc (b0 :: bs))
        = (acc.reverse ++ joinNl b0) :: bs.map joinNl := by
  intro bs
  induction bs with
  | nil =>
    intro b0 hb0 _ fuel acc hlen
    have h0 : renderDoc [b0] = joinNl b0 ++ [] := by simp [renderDoc]
    rw [h0]
    rw [splitBlocksF_block b0 hb0.2 fuel acc [] (by rw [← h0]; exact hlen)]
    rw [splitBlocksF_nil]
    rw [List.reverse_append, List.reverse_reverse]
    rfl
  | cons b1 bs1 ih =>
    intro b0 hb0 hbs fuel acc hlen
    have hD : renderDoc (b0 :: b1 :: bs1)
        = joinNl b0 ++ '\n' :: '\n' :: renderDoc (b1 :: bs1) := rfl
    have hDlen : (renderDoc (b0 :: b1 :: bs1)).length
        = (joinNl b0).length + ((renderDoc (b1 :: bs1)).length + 2) := by
      rw [hD, List.length_append, List.length_cons, List.length_cons]
    rw [hD]
    rw [splitBlocksF_block b0 hb0.2 fuel acc _ (by rw [← hD]; exact hlen)]
    obtain ⟨k, hk⟩ : ∃ k, fuel - (joinNl b0).length = k + 2 :=
      ⟨fuel - (joinNl b0).length - 2, by rw [hDlen] at hlen; omega⟩
    rw [hk]
    rw [splitBlocksF_sep k ((joinNl b0).reverse ++ acc) _
      (renderDoc_head_not_ws b1 bs1 (hbs b1 (by simp)))]
    rw [ih b1 (hbs b1 (by simp)) (fun x hx => hbs x (List.mem_cons_of_mem b1 hx))
      (k + 1) [] (by rw [hDlen] at hlen; omega)]
    rw [List.reverse_append, List.reverse_reverse]
    rfl

/-- `re.split` recovers exactly the blocks of a rendered well-formed
document. -/
theorem splitBlocks_renderDoc (bs : List (List (List Char))) (hne : bs ≠ [])
    (h : ∀ b ∈ bs, WFBlock b) :
    splitBlocks (String.mk (renderDoc bs)) = bs.map joinNl := by
  cases bs with
  | nil => exact absurd rfl hne
  | cons b0 bs1 =>
    show splitBlocksF (pyStripL (renderDoc (b0 :: bs1))).length []
        (pyStripL (renderDoc (b0 :: bs1))) = _
    have hstrip : pyStripL (renderDoc (b0 :: bs1)) = renderDoc (b0 :: bs1) :=
      strip_noop _ (renderDoc_head_not_ws b0 bs1 (h b0 (by simp)))
        (renderDoc_getLast_not_ws bs1 b0 (h b0 (by simp))
          (fun x hx => h x (List.mem_cons_of_mem b0 hx)))
    rw [hstrip]
    rw [splitBlocksF_doc bs1 b0 (h b0 (by simp))
      (fun x hx => h x (List.mem_cons_of_mem b0 hx)) _ [] (Nat.le_refl _)]
    simp

/-- **C2** (functional correctness): for every document rendered from
well-formed blocks, `parse_srt` processes each block in document order:
well-formed three-plus-line blocks with an integer first line become entries
(id from the first line, timestamp the second line verbatim, remaining lines
joined with single spaces); blocks with fewer than three lines or a
non-integer first line are omitted without halting the parsing of subsequent
blocks; and the empty document yields the empty sequence. -/
theorem C2_parse_srt_correct :
    (∀ bs : List (List (List Char)), bs ≠ [] → (∀ b ∈ bs, WFBlock b) →
      parse_srt_blocks (String.mk (renderDoc bs)) = bs.map expectedResult
      ∧ parse_srt (String.mk (renderDoc bs)) = parsedOf (bs.map expectedResult))
    ∧ parse_srt "" = [] := by
  constructor
  · intro bs hne h
    have hblocks : parse_srt_blocks (String.mk (renderDoc bs))
        = bs.map expectedResult := by
      unfold parse_srt_blocks
      rw [splitBlocks_renderDoc bs hne h, List.map_map]
      exact List.map_congr_left (fun b hb => parseBlock_joinNl b (h b hb))
    refine ⟨hblocks, ?_⟩
    unfold parse_srt parsedOf
    rw [hblocks]
  · decide

/-- Witness for C2 on a four-block document: two good blocks (one with a
multi-line text), one 2-line block, one 3-line block with a non-integer id;
the parser keeps the two good entries in order and drops the bad blocks
without stopping. -/
theorem C2_parse_srt_correct_witness :
    parse_srt_blocks (String.mk (renderDoc
        [[['1'], ['t', '1'], "Hello".toList],
         [['a', 'b']],
         [['x'], ['y', 'y'], ['z']],
         [['2'], ['t', '2'], "Wo".toList, "rld".toList]]))
      = [BlockResult.parsed ⟨1, "t1", "Hello"⟩, BlockResult.skippedSilent,
         BlockResult.skippedDiag, BlockResult.parsed ⟨2, "t2", "Wo rld"⟩]
    ∧ parse_srt (String.mk (renderDoc
        [[['1'], ['t', '1'], "Hello".toList],
         [['a', 'b']],
         [['x'], ['y', 'y'], ['z']],
         [['2'], ['t', '2'], "Wo".toList, "rld".toList]]))
      = [⟨1, "t1", "Hello"⟩, ⟨2, "t2", "Wo rld"⟩] := by
  have h := C2_parse_srt_correct.1
    [[['1'], ['t', '1'], "Hello".toList],
     [['a', 'b']],
     [['x'], ['y', 'y'], ['z']],
     [['2'], ['t', '2'], "Wo".toList, "rld".toList]]
    (by decide) (by decide)
  refine ⟨?_, ?_⟩
  · rw [h.1]
    decide
  · rw [h.2]
    decide
